import Mathlib

/-!
# Network-adjusted time: `src/timedata.cpp`

A shallow embedding of `GetTimeOffset`, `GetAdjustedTime`, `abs64` and `AddTimeData`.

* `int64_t` values are mathematical integers; the operations of the file that can leave
  the 64-bit range (the negation inside `abs64`, the sum inside `GetAdjustedTime`) are
  reduced with `wrap64`. Theorems that need a sample or a median to be in range say so.
* The median filter of timedata.h is modelled from the spec: its `Median()` is the
  arithmetic mean of the spec, a rational number, and `AddTimeData` reads it converted to
  `int64_t` (line 67).
* The function-local statics of `AddTimeData` (`setKnown`, `listKnown`, `vTimeOffsets`,
  `fDone`) and the globals `nTimeOffset`, `strMiscWarning` form one explicit `State`.
* The collaborators that are called but never read back (`LogPrintf`,
  `uiInterface.ThreadSafeMessageBox`) are recorded as a list of `Event`s.
* `GetBoolArg("-trustlocalclock", false)` and `fDebug` are inputs of each call.
* `CNetAddr` (netbase.h) is a type parameter; only its equality is used.
-/

namespace TimeData

/-! ## 64-bit integers -/

/-- The `int64_t` value congruent to `n` modulo `2^64`. -/
def wrap64 (n : Int) : Int := (n + 2 ^ 63) % 2 ^ 64 - 2 ^ 63

/-- Whether `n` is representable as an `int64_t`. -/
def inInt64 (n : Int) : Prop := -(2 ^ 63) ≤ n ∧ n < 2 ^ 63

instance (n : Int) : Decidable (inInt64 n) := inferInstanceAs (Decidable (_ ∧ _))

/-- Function `abs64` (timedata.cpp:38-41): `n >= 0 ? n : -n` on `int64_t`, where the
negation is a 64-bit negation. -/
def abs64 (n : Int) : Int := if n ≥ 0 then n else wrap64 (-n)

/-- Conversion of a value to `int64_t`, as in the initialisation of an `int64_t` variable
(line 67): the fractional part is discarded, which rounds toward zero. -/
def toInt64 (q : ℚ) : Int := Int.tdiv q.num q.den

/-! ## The median filter -/

/-- Modelled from the spec: the class `CMedianFilter<int64_t>` (timedata.h), whose code is
not among the sources. Spec 4.2: the filter is parameterised by a capacity and an initial
seed value and keeps a FIFO buffer of stored values. The reading fixed here is the one the
spec words for `Size()`: the seed is a construction-time default that is never counted as
a stored sample, so `vValues` holds the real samples only, oldest first. -/
structure CMedianFilter where
  nSize : Nat
  initial_value : Int
  vValues : List Int
deriving DecidableEq

namespace CMedianFilter

/-- Modelled from the spec: the constructor `CMedianFilter(size, initial_value)`. -/
def create (size : Nat) (initial_value : Int) : CMedianFilter :=
  { nSize := size, initial_value := initial_value, vValues := [] }

/-- Modelled from the spec: `Input(value)` appends `value`; if the stored count then
exceeds the capacity, the oldest stored value is evicted (FIFO). -/
def input (f : CMedianFilter) (value : Int) : CMedianFilter :=
  let vValues := f.vValues ++ [value]
  { f with vValues := if vValues.length > f.nSize then vValues.tail else vValues }

/-- Modelled from the spec: `Size()` is the number of real samples currently stored
(the construction-time seed is excluded). -/
def size (f : CMedianFilter) : Nat := f.vValues.length

/-- Modelled from the spec: `Sorted()` is the ascending sequence of the stored values. -/
def sorted (f : CMedianFilter) : List Int := f.vValues.insertionSort (· ≤ ·)

/-- Modelled from the spec: `Median()` of the `n` stored values sorted ascending is the
middle element if `n` is odd, and the arithmetic mean of the two middle elements if `n`
is even (2.5 for the stored values 1, 2, 3, 4). The spec does not say what an empty
filter returns; the seed is returned there. -/
def Median (f : CMedianFilter) : ℚ :=
  let vSorted := f.sorted
  let size := vSorted.length
  if size = 0 then (f.initial_value : ℚ)
  else if size % 2 = 1 then ((vSorted.getD (size / 2) 0 : Int) : ℚ)
  else (((vSorted.getD (size / 2 - 1) 0 : Int) : ℚ) + ((vSorted.getD (size / 2) 0 : Int) : ℚ)) / 2

/-- Modelled from the spec: the `int64_t` that line 67 reads from the filter,
`int64_t nMedian = vTimeOffsets.median()`, which is the value of `Median()` converted to
`int64_t`. A mean of two stored values lies between them, so the result is in the 64-bit
range whenever the stored values are. -/
def median (f : CMedianFilter) : Int := toInt64 f.Median

end CMedianFilter

/-! ## State and observable effects -/

/-- The mutable data of the translation unit: the global `nTimeOffset` (line 18), the
statics of `AddTimeData` (lines 48, 53, 62, 96) and the global `strMiscWarning`. -/
structure State (CNetAddr : Type) where
  nTimeOffset : Int
  setKnown : Finset CNetAddr
  listKnown : List CNetAddr
  vTimeOffsets : CMedianFilter
  fDone : Bool
  strMiscWarning : String

/-- Calls made to the logging and user-notification collaborators. -/
inductive Event where
  /-- Line 64: "Added time data, samples %d, offset %+d (%+d minutes)". -/
  | logAdded (samples : Nat) (nOffsetSample : Int)
  /-- Line 95: "*** %s" with the warning message. -/
  | logWarning (strMessage : String)
  /-- Line 99: `uiInterface.ThreadSafeMessageBox(strMessage, "", MSG_WARNING)`. -/
  | messageBox (strMessage : String)
  /-- Lines 103-105: the dump of the sorted offsets when `fDebug` is set. -/
  | logSorted (vSorted : List Int)
  /-- Line 107: "nTimeOffset = %+d  (%+d minutes)". -/
  | logOffset (nTimeOffset : Int)
deriving DecidableEq

/-- The constant `const int medianRange = 200` (line 45). -/
def medianRange : Nat := 200

/-- The translated warning text of line 93. -/
def strMessage : String :=
  "Warning: Please check that your computer\x27s date and time are correct! If your clock is wrong Bitcoin Core will not work properly."

/-- The state before the first call: `nTimeOffset = 0`, empty `setKnown` and `listKnown`,
`vTimeOffsets(medianRange, 0)`, `fDone` zero-initialised, no warning text. -/
def State.init (CNetAddr : Type) : State CNetAddr :=
  { nTimeOffset := 0
    setKnown := ∅
    listKnown := []
    vTimeOffsets := CMedianFilter.create medianRange 0
    fDone := false
    strMiscWarning := "" }

/-- Function `GetTimeOffset` (lines 27-31): the current value of `nTimeOffset`. -/
def GetTimeOffset {CNetAddr : Type} (s : State CNetAddr) : Int := s.nTimeOffset

/-- Function `GetAdjustedTime` (lines 33-36): `GetTime() + GetTimeOffset()`, where the
argument `GetTime` is the reading of the system clock at the call. Both operands and the
result are `int64_t`, so the sum is the 64-bit sum. -/
def GetAdjustedTime {CNetAddr : Type} (GetTime : Int) (s : State CNetAddr) : Int :=
  wrap64 (GetTime + GetTimeOffset s)

section AddTimeData

variable {CNetAddr : Type} [DecidableEq CNetAddr]

/-- Lines 55-59: `while (listKnown.size() > medianRange)` erase `listKnown.back()` from
`setKnown` and pop it from `listKnown`. -/
def prune (setKnown : Finset CNetAddr) (listKnown : List CNetAddr) :
    Finset CNetAddr × List CNetAddr :=
  if h : listKnown.length > medianRange then
    let oldest := listKnown.getLast (List.ne_nil_of_length_pos (Nat.lt_of_le_of_lt (Nat.zero_le _) h))
    prune (setKnown.erase oldest) listKnown.dropLast
  else (setKnown, listKnown)
termination_by listKnown.length
decreasing_by
  simp only [List.length_dropLast]
  omega

/-- Lines 82-86: `fMatch` after the loop over `vSorted`. -/
def matchLoop (vSorted : List Int) : Bool :=
  vSorted.foldl (fun fMatch nOffset =>
    if nOffset ≠ 0 ∧ abs64 nOffset < 5 * 60 then true else fMatch) false

/-- Function `AddTimeData` (lines 43-109). `fTrustLocalClock` is the value of
`GetBoolArg("-trustlocalclock", false)` and `fDebug` the debug flag at the call. Returns
the new state and the collaborator calls made, in order. -/
def AddTimeData (fTrustLocalClock fDebug : Bool) (s : State CNetAddr) (ip : CNetAddr)
    (nOffsetSample : Int) : State CNetAddr × List Event :=
  -- Ignore duplicates
  if ip ∈ s.setKnown then (s, [])
  else
    -- Prune old addresses
    let known := prune (insert ip s.setKnown) (ip :: s.listKnown)
    -- Add data
    let vTimeOffsets := s.vTimeOffsets.input nOffsetSample
    let s1 : State CNetAddr :=
      { s with setKnown := known.1, listKnown := known.2, vTimeOffsets := vTimeOffsets }
    let log1 := [Event.logAdded vTimeOffsets.size nOffsetSample]
    if vTimeOffsets.size ≥ 5 then
      let nMedian := vTimeOffsets.median
      -- Only let other nodes change our time by so much, and only if local clock no trusted
      let nTimeOffset :=
        if abs64 nMedian < 70 * 60 ∧ fTrustLocalClock = false then
          if vTimeOffsets.size < medianRange then nMedian else s.nTimeOffset
        else 0
      let vSorted := vTimeOffsets.sorted
      -- If median time too far off, give a warning
      let fMatch := if abs64 nMedian > 15 * 60 then false else matchLoop vSorted
      let log3 := (if fDebug then [Event.logSorted vSorted] else []) ++ [Event.logOffset nTimeOffset]
      if fMatch = false then
        let log2 := Event.logWarning strMessage ::
          (if s.fDone = false then [Event.messageBox strMessage] else [])
        ({ s1 with nTimeOffset := nTimeOffset, strMiscWarning := strMessage, fDone := true },
          log1 ++ log2 ++ log3)
      else
        ({ s1 with nTimeOffset := nTimeOffset }, log1 ++ log3)
    else (s1, log1)

/-- One call of `AddTimeData` with the configuration read at that call. -/
structure Call (CNetAddr : Type) where
  ip : CNetAddr
  nOffsetSample : Int
  fTrustLocalClock : Bool
  fDebug : Bool

/-- The state after a call. -/
def step (s : State CNetAddr) (c : Call CNetAddr) : State CNetAddr :=
  (AddTimeData c.fTrustLocalClock c.fDebug s c.ip c.nOffsetSample).1

/-- The collaborator calls made by a call. -/
def stepEvents (s : State CNetAddr) (c : Call CNetAddr) : List Event :=
  (AddTimeData c.fTrustLocalClock c.fDebug s c.ip c.nOffsetSample).2

/-- The state after a sequence of calls. -/
def runState (s : State CNetAddr) : List (Call CNetAddr) → State CNetAddr
  | [] => s
  | c :: cs => runState (step s c) cs

/-- All collaborator calls made during a sequence of calls, in order. -/
def runEvents (s : State CNetAddr) : List (Call CNetAddr) → List Event
  | [] => []
  | c :: cs => stepEvents s c ++ runEvents (step s c) cs

end AddTimeData

section Ghost

variable {CNetAddr : Type} [DecidableEq CNetAddr]

/-- Whether an event is a call of the user-notification sink. -/
def Event.isMessageBox : Event → Bool
  | Event.messageBox _ => true
  | _ => false

/-- Whether an event is the warning line of the log (line 95). -/
def Event.isLogWarning : Event → Bool
  | Event.logWarning _ => true
  | _ => false

/-- How often `ThreadSafeMessageBox` is invoked in a list of events. -/
def countMessageBox (evs : List Event) : Nat := evs.countP Event.isMessageBox

/-- The call reaches the warning stage (line 92) with the disagreement condition true:
it is admitted, leaves at least 5 values in the filter, and `fMatch` is false after
lines 82-90. -/
def warnStage (s : State CNetAddr) (c : Call CNetAddr) : Prop :=
  c.ip ∉ s.setKnown ∧ (s.vTimeOffsets.input c.nOffsetSample).size ≥ 5 ∧
  (if abs64 (s.vTimeOffsets.input c.nOffsetSample).median > 15 * 60 then false
   else matchLoop (s.vTimeOffsets.input c.nOffsetSample).sorted) = false

instance (s : State CNetAddr) (c : Call CNetAddr) : Decidable (warnStage s c) :=
  inferInstanceAs (Decidable (_ ∧ _ ∧ _))

/-- Ghost bookkeeping for the filter: every stored sample together with the peer whose
admitted call supplied it. It is updated exactly when `AddTimeData` calls
`vTimeOffsets.input` and by the same FIFO rule with the same capacity. -/
def stepTagged (s : State CNetAddr) (tagged : List (CNetAddr × Int)) (c : Call CNetAddr) :
    List (CNetAddr × Int) :=
  if c.ip ∈ s.setKnown then tagged
  else
    let v := tagged ++ [(c.ip, c.nOffsetSample)]
    if v.length > s.vTimeOffsets.nSize then v.tail else v

/-- The ghost bookkeeping after a sequence of calls. -/
def runTagged (s : State CNetAddr) (tagged : List (CNetAddr × Int)) :
    List (Call CNetAddr) → List (CNetAddr × Int)
  | [] => tagged
  | c :: cs => runTagged (step s c) (stepTagged s tagged c) cs

/-- The invariant tying the recency window, the dedup set, the filter and the ghost
bookkeeping together. -/
def Inv (s : State CNetAddr) (tagged : List (CNetAddr × Int)) : Prop :=
  (∀ p, p ∈ s.setKnown ↔ p ∈ s.listKnown) ∧ s.listKnown.Nodup ∧
  s.listKnown.length ≤ medianRange ∧ s.vTimeOffsets.nSize = medianRange ∧
  tagged.map Prod.snd = s.vTimeOffsets.vValues ∧
  tagged.map Prod.fst = s.listKnown.reverse

/-- How many calls of a sequence change the value of `nTimeOffset`. -/
def offsetChanges (s : State CNetAddr) : List (Call CNetAddr) → Nat
  | [] => 0
  | c :: cs =>
    (if (step s c).nTimeOffset = s.nTimeOffset then 0 else 1) + offsetChanges (step s c) cs

end Ghost

section Scenarios

/-- Four distinct peers `1..4`, each reporting the offset `x`, with `-trustlocalclock`
unset and `fDebug` off. -/
def fourPeers (x : Int) : List (Call Nat) :=
  [⟨1, x, false, false⟩, ⟨2, x, false, false⟩, ⟨3, x, false, false⟩, ⟨4, x, false, false⟩]

/-- A state whose filter already holds `medianRange` samples, all equal to `v`, while the
global offset is `o`. -/
def fullState (o v : Int) : State Nat :=
  { nTimeOffset := o
    setKnown := ∅
    listKnown := []
    vTimeOffsets := { nSize := medianRange, initial_value := 0, vValues := List.replicate medianRange v }
    fDone := false
    strMiscWarning := "" }

/-- The calls of `n` pairwise distinct peers `0, 1, ..., n-1` in that order, each
reporting offset 0. -/
def distinctPeers (n : Nat) : List (Call Nat) :=
  (List.range n).map (fun i => ⟨i, 0, false, false⟩)

/-- A fifth peer reporting `x`. -/
def fifthPeer (x : Int) : Call Nat := ⟨5, x, false, false⟩

/-- A sixth peer reporting `x`. -/
def sixthPeer (x : Int) : Call Nat := ⟨6, x, false, false⟩

/-- The state `s` with the latch set and the warning text stored. -/
def latched (s : State Nat) : State Nat :=
  { s with fDone := true, strMiscWarning := strMessage }

end Scenarios

section Lemmas

variable {CNetAddr : Type} [DecidableEq CNetAddr]

/-! ### `abs64` -/

theorem wrap64_of_inInt64 {n : Int} (h : inInt64 n) : wrap64 n = n := by
  unfold inInt64 at h
  unfold wrap64
  omega

omit [DecidableEq CNetAddr] in
theorem wrap64_inInt64 (n : Int) : inInt64 (wrap64 n) := by
  unfold inInt64 wrap64
  omega

theorem abs64_of_abs_lt {n : Int} (h : |n| < 2 ^ 63) : abs64 n = |n| := by
  have h1 := abs_lt.mp h
  unfold abs64
  split_ifs with hn
  · exact (abs_of_nonneg hn).symm
  · rw [wrap64_of_inInt64 (by unfold inInt64; omega), abs_of_neg (by omega)]

theorem abs64_int64_min : abs64 (-(2 ^ 63)) = -(2 ^ 63) := by decide

/-! ### The value read from the filter -/

omit [DecidableEq CNetAddr] in
theorem toInt64_intCast (n : Int) : toInt64 (n : ℚ) = n := by
  simp [toInt64, Int.tdiv_one]

omit [DecidableEq CNetAddr] in
theorem toInt64_half (n : Int) : toInt64 ((n : ℚ) / 2) = Int.tdiv n 2 := by
  rcases Int.even_or_odd n with ⟨k, hk⟩ | hodd
  · have h1 : ((n : ℚ) / 2) = ((k : ℤ) : ℚ) := by
      rw [hk]; push_cast; ring
    rw [h1, toInt64_intCast, hk, ← two_mul, Int.mul_tdiv_cancel_left _ (by norm_num)]
  · have hcop : Nat.Coprime n.natAbs (2 : ℤ).natAbs := by
      have : Odd n.natAbs := Int.natAbs_odd.2 hodd
      simpa using Nat.coprime_two_right.2 this
    have h2 : ((n : ℚ) / 2) = ((n : ℚ) / ((2 : ℤ) : ℚ)) := by norm_num
    rw [h2, toInt64, Rat.num_div_eq_of_coprime (by norm_num) hcop,
      Rat.den_div_eq_of_coprime (by norm_num) hcop]

omit [DecidableEq CNetAddr] in
/-- The value read at line 67 in closed form: the middle element for an odd number of
stored values, and for an even number the sum of the two middle elements divided by 2
and rounded toward zero. -/
theorem median_eq (f : CMedianFilter) :
    f.median =
      if f.sorted.length = 0 then f.initial_value
      else if f.sorted.length % 2 = 1 then f.sorted.getD (f.sorted.length / 2) 0
      else Int.tdiv (f.sorted.getD (f.sorted.length / 2 - 1) 0
        + f.sorted.getD (f.sorted.length / 2) 0) 2 := by
  unfold CMedianFilter.median CMedianFilter.Median
  simp only
  split_ifs
  · exact toInt64_intCast _
  · exact toInt64_intCast _
  · rw [← Int.cast_add]
    exact toInt64_half _

/-! ### The pruning loop -/

theorem prune_of_le (S : Finset CNetAddr) (l : List CNetAddr) (h : l.length ≤ medianRange) :
    prune S l = (S, l) := by
  rw [prune, dif_neg (by omega)]

theorem prune_of_succ (S : Finset CNetAddr) (l : List CNetAddr) (a : CNetAddr)
    (h : l.length = medianRange) : prune S (l ++ [a]) = (S.erase a, l) := by
  rw [prune, dif_pos (by simp [h])]
  simp only [List.getLast_append_singleton, List.dropLast_concat]
  exact prune_of_le _ _ (by omega)

theorem prune_snd_length (S : Finset CNetAddr) (l : List CNetAddr) :
    (prune S l).2.length ≤ medianRange := by
  induction S, l using prune.induct with
  | case1 S l h oldest ih => rw [prune, dif_pos h]; exact ih
  | case2 S l h => rw [prune, dif_neg h]; simpa using h

/-! ### Projections of one call -/

theorem AddTimeData_dup (t d : Bool) (s : State CNetAddr) (ip : CNetAddr) (x : Int)
    (h : ip ∈ s.setKnown) : AddTimeData t d s ip x = (s, []) := by
  simp [AddTimeData, h]

theorem AddTimeData_setKnown (t d : Bool) (s : State CNetAddr) (ip : CNetAddr) (x : Int)
    (h : ip ∉ s.setKnown) :
    (AddTimeData t d s ip x).1.setKnown = (prune (insert ip s.setKnown) (ip :: s.listKnown)).1 := by
  simp only [AddTimeData, if_neg h]
  split_ifs <;> rfl

theorem AddTimeData_listKnown (t d : Bool) (s : State CNetAddr) (ip : CNetAddr) (x : Int)
    (h : ip ∉ s.setKnown) :
    (AddTimeData t d s ip x).1.listKnown = (prune (insert ip s.setKnown) (ip :: s.listKnown)).2 := by
  simp only [AddTimeData, if_neg h]
  split_ifs <;> rfl

theorem AddTimeData_vTimeOffsets (t d : Bool) (s : State CNetAddr) (ip : CNetAddr) (x : Int)
    (h : ip ∉ s.setKnown) :
    (AddTimeData t d s ip x).1.vTimeOffsets = s.vTimeOffsets.input x := by
  simp only [AddTimeData, if_neg h]
  split_ifs <;> rfl

theorem AddTimeData_nTimeOffset (t d : Bool) (s : State CNetAddr) (ip : CNetAddr) (x : Int)
    (h : ip ∉ s.setKnown) :
    (AddTimeData t d s ip x).1.nTimeOffset =
      if (s.vTimeOffsets.input x).size ≥ 5 then
        if abs64 (s.vTimeOffsets.input x).median < 70 * 60 ∧ t = false then
          if (s.vTimeOffsets.input x).size < medianRange then (s.vTimeOffsets.input x).median
          else s.nTimeOffset
        else 0
      else s.nTimeOffset := by
  simp only [AddTimeData, if_neg h]
  split_ifs <;> rfl

/-! ### The recency window -/

theorem prune_snd (S : Finset CNetAddr) (l : List CNetAddr) :
    (prune S l).2 = l.take medianRange := by
  induction S, l using prune.induct with
  | case1 S l h oldest ih =>
    rw [prune, dif_pos h, ih, List.dropLast_eq_take, List.take_take]
    congr 1
    omega
  | case2 S l h =>
    rw [prune, dif_neg h, List.take_of_length_le (by omega)]

theorem step_listKnown (s : State CNetAddr) (c : Call CNetAddr) (h : c.ip ∉ s.setKnown) :
    (step s c).listKnown = (c.ip :: s.listKnown).take medianRange := by
  rw [step, AddTimeData_listKnown _ _ _ _ _ h, prune_snd]

theorem step_dup (s : State CNetAddr) (c : Call CNetAddr) (h : c.ip ∈ s.setKnown) :
    step s c = s := by
  rw [step, AddTimeData_dup _ _ _ _ _ h]

theorem step_vTimeOffsets (s : State CNetAddr) (c : Call CNetAddr) (h : c.ip ∉ s.setKnown) :
    (step s c).vTimeOffsets = s.vTimeOffsets.input c.nOffsetSample := by
  rw [step, AddTimeData_vTimeOffsets _ _ _ _ _ h]

theorem step_below (s : State CNetAddr) (c : Call CNetAddr) (h : c.ip ∉ s.setKnown)
    (hlen : s.listKnown.length < medianRange) :
    (step s c).listKnown = c.ip :: s.listKnown ∧
    (step s c).setKnown = insert c.ip s.setKnown := by
  have hp := prune_of_le (insert c.ip s.setKnown) (c.ip :: s.listKnown)
    (by simpa using hlen)
  rw [step, AddTimeData_listKnown _ _ _ _ _ h, AddTimeData_setKnown _ _ _ _ _ h, hp]
  exact ⟨rfl, rfl⟩

theorem step_full (s : State CNetAddr) (c : Call CNetAddr) (h : c.ip ∉ s.setKnown)
    (d : List CNetAddr) (a : CNetAddr) (hl : s.listKnown = d ++ [a])
    (hlen : s.listKnown.length = medianRange) :
    (step s c).listKnown = c.ip :: d ∧
    (step s c).setKnown = (insert c.ip s.setKnown).erase a := by
  have hp := prune_of_succ (insert c.ip s.setKnown) (c.ip :: d) a
    (by rw [hl] at hlen; simpa using hlen)
  rw [step, AddTimeData_listKnown _ _ _ _ _ h, AddTimeData_setKnown _ _ _ _ _ h, hl,
    ← List.cons_append, hp]
  exact ⟨rfl, rfl⟩

omit [DecidableEq CNetAddr] in
theorem Inv_init : Inv (State.init CNetAddr) [] := by
  simp [Inv, State.init, CMedianFilter.create]

theorem Inv_step (s : State CNetAddr) (tg : List (CNetAddr × Int)) (c : Call CNetAddr)
    (hinv : Inv s tg) : Inv (step s c) (stepTagged s tg c) := by
  obtain ⟨hset, hnd, hlen, hcap, hsnd, hfst⟩ := hinv
  by_cases h : c.ip ∈ s.setKnown
  · rw [step_dup s c h, stepTagged, if_pos h]
    exact ⟨hset, hnd, hlen, hcap, hsnd, hfst⟩
  · have hnl : c.ip ∉ s.listKnown := fun hm => h ((hset _).2 hm)
    have htl : tg.length = s.listKnown.length := by
      have := congrArg List.length hfst
      simpa using this
    have hvl : s.vTimeOffsets.vValues.length = s.listKnown.length := by
      rw [← hsnd]; simpa using htl
    rcases Nat.lt_or_ge s.listKnown.length medianRange with hlt | hge
    · obtain ⟨h1, h2⟩ := step_below s c h hlt
      refine ⟨?_, ?_, ?_, ?_, ?_, ?_⟩
      · intro p; rw [h1, h2]; simp [hset]
      · rw [h1]; exact List.nodup_cons.2 ⟨hnl, hnd⟩
      · rw [h1]; simpa using hlt
      · rw [step_vTimeOffsets s c h]; exact hcap
      · rw [step_vTimeOffsets s c h, stepTagged, if_neg h]
        simp only [CMedianFilter.input, List.length_append, List.length_singleton, hcap]
        rw [if_neg (by omega), if_neg (by omega)]
        simp [hsnd]
      · rw [h1, stepTagged, if_neg h]
        simp only [List.length_append, List.length_singleton, hcap]
        rw [if_neg (by omega)]
        simp [hfst]
    · have hfull : s.listKnown.length = medianRange := le_antisymm hlen hge
      have hne : s.listKnown ≠ [] := by
        intro h0; rw [h0] at hfull; simp [medianRange] at hfull
      obtain ⟨d, a, hl⟩ : ∃ d a, s.listKnown = d ++ [a] :=
        ⟨s.listKnown.dropLast, s.listKnown.getLast hne,
          (List.dropLast_append_getLast hne).symm⟩
      obtain ⟨h1, h2⟩ := step_full s c h d a hl hfull
      rw [hl] at hnd hnl hfull hfst
      have hda : a ∉ d := by
        have := List.nodup_append.1 hnd
        intro hm
        exact this.2.2 hm (List.mem_singleton_self a)
      have hdn : d.Nodup := (List.nodup_append.1 hnd).1
      have hca : c.ip ≠ a := by
        intro he; exact hnl (by simp [he])
      have hcd : c.ip ∉ d := fun hm => hnl (List.mem_append_left _ hm)
      have hdl : d.length + 1 = medianRange := by simpa using hfull
      refine ⟨?_, ?_, ?_, ?_, ?_, ?_⟩
      · intro p
        rw [h1, h2]
        simp only [Finset.mem_erase, Finset.mem_insert, hset, hl, List.mem_append,
          List.mem_cons, List.not_mem_nil, or_false]
        constructor
        · rintro ⟨hpa, hp | hp | hp⟩
          · exact Or.inl hp
          · exact Or.inr hp
          · exact absurd hp hpa
        · rintro (hp | hp)
          · exact ⟨by rw [hp]; exact hca, Or.inl hp⟩
          · exact ⟨fun he => hda (he ▸ hp), Or.inr (Or.inl hp)⟩
      · rw [h1]; exact List.nodup_cons.2 ⟨hcd, hdn⟩
      · rw [h1]; simp only [List.length_cons]; omega
      · rw [step_vTimeOffsets s c h]; exact hcap
      · rw [step_vTimeOffsets s c h, stepTagged, if_neg h]
        simp only [CMedianFilter.input, List.length_append, List.length_singleton, hcap]
        rw [if_pos (by omega), if_pos (by omega)]
        simp [hsnd, List.map_tail]
      · rw [h1, stepTagged, if_neg h]
        simp only [List.length_append, List.length_singleton, hcap]
        rw [if_pos (by omega)]
        rw [List.map_tail, List.map_append, hfst]
        simp

theorem Inv_run (cs : List (Call CNetAddr)) (s : State CNetAddr)
    (tg : List (CNetAddr × Int)) (hinv : Inv s tg) :
    Inv (runState s cs) (runTagged s tg cs) := by
  induction cs generalizing s tg with
  | nil => exact hinv
  | cons c cs ih => exact ih _ _ (Inv_step s tg c hinv)

theorem Inv_reachable (cs : List (Call CNetAddr)) :
    Inv (runState (State.init CNetAddr) cs) (runTagged (State.init CNetAddr) [] cs) :=
  Inv_run cs _ _ Inv_init

theorem mem_setKnown_after (t d : Bool) (s : State CNetAddr) (tg : List (CNetAddr × Int))
    (hinv : Inv s tg) (p : CNetAddr) (x : Int) :
    p ∈ (AddTimeData t d s p x).1.setKnown := by
  by_cases h : p ∈ s.setKnown
  · rw [AddTimeData_dup _ _ _ _ _ h]; exact h
  · have hi := Inv_step s tg ⟨p, x, t, d⟩ hinv
    have hl := step_listKnown s ⟨p, x, t, d⟩ h
    refine (hi.1 p).2 ?_
    rw [hl]
    simp [medianRange]

omit [DecidableEq CNetAddr] in
theorem take_append_take (n : Nat) (A B : List CNetAddr) :
    (A ++ B.take n).take n = (A ++ B).take n := by
  rw [List.take_append_eq_append_take, List.take_append_eq_append_take, List.take_take]
  congr 2
  omega

theorem runState_fresh (cs : List (Call CNetAddr)) (s : State CNetAddr)
    (tg : List (CNetAddr × Int)) (hinv : Inv s tg) (hnd : (cs.map Call.ip).Nodup)
    (hfresh : ∀ c ∈ cs, c.ip ∉ s.listKnown) :
    (runState s cs).listKnown = ((cs.map Call.ip).reverse ++ s.listKnown).take medianRange := by
  induction cs generalizing s tg with
  | nil => simp [runState, List.take_of_length_le hinv.2.2.1]
  | cons c cs ih =>
    have hc : c.ip ∉ s.setKnown := fun hm =>
      hfresh c (List.mem_cons_self _ _) ((hinv.1 _).1 hm)
    have hl := step_listKnown s c hc
    rw [List.map_cons, List.nodup_cons] at hnd
    have hfresh1 : ∀ c1 ∈ cs, c1.ip ∉ (step s c).listKnown := by
      intro c1 hc1 hm
      rw [hl] at hm
      rcases List.mem_cons.1 (List.mem_of_mem_take hm) with he | hm
      · exact hnd.1 (he ▸ List.mem_map_of_mem _ hc1)
      · exact hfresh c1 (List.mem_cons_of_mem _ hc1) hm
    rw [runState, ih (step s c) _ (Inv_step s tg c hinv) hnd.2 hfresh1, hl, take_append_take]
    simp

theorem input_getLast (f : CMedianFilter) (x : Int) (h : 1 ≤ f.nSize) :
    (f.input x).vValues.getLast? = some x := by
  unfold CMedianFilter.input
  cases hv : f.vValues with
  | nil =>
    simp only [List.nil_append, List.length_singleton]
    rw [if_neg (by omega)]
    rfl
  | cons a v =>
    simp only [List.cons_append, List.tail_cons]
    split_ifs
    · exact List.getLast?_concat _
    · rw [← List.cons_append]; exact List.getLast?_concat _

theorem admit_full (t dbg : Bool) (s : State CNetAddr) (tg : List (CNetAddr × Int))
    (hinv : Inv s tg) (ip oldest : CNetAddr) (x : Int)
    (hlen : s.listKnown.length = medianRange) (hadm : ip ∉ s.setKnown)
    (hlast : s.listKnown.getLast? = some oldest) :
    (AddTimeData t dbg s ip x).1.listKnown = ip :: s.listKnown.dropLast ∧
    (AddTimeData t dbg s ip x).1.setKnown = insert ip (s.setKnown.erase oldest) ∧
    oldest ∉ (AddTimeData t dbg s ip x).1.listKnown ∧
    oldest ∉ (AddTimeData t dbg s ip x).1.setKnown := by
  have hl : s.listKnown = s.listKnown.dropLast ++ [oldest] :=
    (List.dropLast_append_getLast? oldest hlast).symm
  obtain ⟨h1, h2⟩ := step_full s ⟨ip, x, t, dbg⟩ hadm _ _ hl hlen
  have hmem : oldest ∈ s.listKnown := by rw [hl]; simp
  have hne : ip ≠ oldest := fun he => hadm ((hinv.1 _).2 (he ▸ hmem))
  have hnd := hinv.2.1
  rw [hl] at hnd
  have hnot : oldest ∉ s.listKnown.dropLast := fun hm =>
    (List.nodup_append.1 hnd).2.2 hm (List.mem_singleton_self _)
  have h1' : (AddTimeData t dbg s ip x).1.listKnown = ip :: s.listKnown.dropLast := h1
  have h2' : (AddTimeData t dbg s ip x).1.setKnown = (insert ip s.setKnown).erase oldest := h2
  refine ⟨h1', ?_, ?_, ?_⟩
  · rw [h2', Finset.erase_insert_of_ne hne]
  · rw [h1']
    exact fun hm => (List.mem_cons.1 hm).elim (fun he => hne he.symm) hnot
  · rw [h2']; exact Finset.not_mem_erase _ _

/-! ### Sequences of calls -/

theorem runState_append (s : State CNetAddr) (a b : List (Call CNetAddr)) :
    runState s (a ++ b) = runState (runState s a) b := by
  induction a generalizing s with
  | nil => rfl
  | cons c a ih => exact ih (step s c)

theorem runEvents_append (s : State CNetAddr) (a b : List (Call CNetAddr)) :
    runEvents s (a ++ b) = runEvents s a ++ runEvents (runState s a) b := by
  induction a generalizing s with
  | nil => rfl
  | cons c a ih =>
    show stepEvents s c ++ runEvents (step s c) (a ++ b) = _
    rw [ih (step s c)]
    simp only [runEvents, runState, List.append_assoc]

theorem listKnown_subset (cs : List (Call CNetAddr)) (s : State CNetAddr) (p : CNetAddr)
    (hp : p ∈ (runState s cs).listKnown) : p ∈ s.listKnown ∨ p ∈ cs.map Call.ip := by
  induction cs generalizing s with
  | nil => exact Or.inl hp
  | cons c cs ih =>
    rcases ih (step s c) hp with h | h
    · by_cases hc : c.ip ∈ s.setKnown
      · rw [step_dup s c hc] at h; exact Or.inl h
      · rw [step_listKnown s c hc] at h
        rcases List.mem_cons.1 (List.mem_of_mem_take h) with he | hm
        · exact Or.inr (by simp [he])
        · exact Or.inl hm
    · exact Or.inr (List.mem_cons_of_mem _ h)

/-- In a reachable state the filter holds no more samples than distinct peers have
called. -/
theorem size_le_card (cs : List (Call CNetAddr)) :
    (runState (State.init CNetAddr) cs).vTimeOffsets.size ≤ (cs.map Call.ip).toFinset.card := by
  obtain ⟨_, hnd, _, _, hsnd, hfst⟩ := Inv_reachable cs
  have hlen : (runState (State.init CNetAddr) cs).vTimeOffsets.size =
      (runState (State.init CNetAddr) cs).listKnown.length := by
    have h1 := congrArg List.length hsnd
    have h2 := congrArg List.length hfst
    simp only [List.length_map, List.length_reverse] at h1 h2
    rw [CMedianFilter.size, ← h1, h2]
  rw [hlen, ← List.toFinset_card_of_nodup hnd]
  apply Finset.card_le_card
  intro p hp
  rw [List.mem_toFinset] at hp ⊢
  rcases listKnown_subset cs _ p hp with h | h
  · simp [State.init] at h
  · exact h

theorem AddTimeData_below (t d : Bool) (s : State CNetAddr) (ip : CNetAddr) (x : Int)
    (h : ip ∉ s.setKnown) (hsz : (s.vTimeOffsets.input x).size < 5) :
    (AddTimeData t d s ip x).1.nTimeOffset = s.nTimeOffset ∧
    (AddTimeData t d s ip x).1.fDone = s.fDone ∧
    (AddTimeData t d s ip x).1.strMiscWarning = s.strMiscWarning ∧
    (AddTimeData t d s ip x).2 = [Event.logAdded (s.vTimeOffsets.input x).size x] := by
  simp only [AddTimeData, if_neg h, if_neg (not_le.2 hsz)]
  exact ⟨trivial, trivial, trivial, trivial⟩

theorem quiet_below_five (cs : List (Call CNetAddr))
    (h : (cs.map Call.ip).toFinset.card < 5) :
    (runState (State.init CNetAddr) cs).nTimeOffset = 0 ∧
    (runState (State.init CNetAddr) cs).fDone = false ∧
    (runState (State.init CNetAddr) cs).strMiscWarning = "" ∧
    ∀ e ∈ runEvents (State.init CNetAddr) cs, ∃ n x, e = Event.logAdded n x := by
  induction cs using List.reverseRecOn with
  | nil => exact ⟨rfl, rfl, rfl, by simp [runEvents]⟩
  | append_singleton l c ih =>
    have hsub : (l.map Call.ip).toFinset ⊆ ((l ++ [c]).map Call.ip).toFinset := by
      intro p hp
      rw [List.mem_toFinset] at hp ⊢
      rw [List.map_append]
      exact List.mem_append_left _ hp
    obtain ⟨i1, i2, i3, i4⟩ := ih (lt_of_le_of_lt (Finset.card_le_card hsub) h)
    have hsz := lt_of_le_of_lt (size_le_card (l ++ [c])) h
    rw [runState_append, runEvents_append] at *
    simp only [runState, runEvents, List.append_nil] at *
    by_cases hc : c.ip ∈ (runState (State.init CNetAddr) l).setKnown
    · rw [step_dup _ c hc]
      refine ⟨i1, i2, i3, ?_⟩
      intro e he
      rw [stepEvents, AddTimeData_dup _ _ _ _ _ hc] at he
      exact i4 e (by simpa using he)
    · rw [step_vTimeOffsets _ c hc] at hsz
      obtain ⟨b1, b2, b3, b4⟩ :=
        AddTimeData_below c.fTrustLocalClock c.fDebug _ c.ip c.nOffsetSample hc hsz
      refine ⟨by rw [step, b1]; exact i1, by rw [step, b2]; exact i2,
        by rw [step, b3]; exact i3, ?_⟩
      intro e he
      rcases List.mem_append.1 he with he | he
      · exact i4 e he
      · rw [stepEvents, b4] at he
        exact ⟨_, _, List.mem_singleton.1 he⟩

/-! ### The warning latch -/

theorem step_quiet (s : State CNetAddr) (c : Call CNetAddr) (h : ¬ warnStage s c) :
    (step s c).fDone = s.fDone ∧ countMessageBox (stepEvents s c) = 0 := by
  unfold warnStage at h
  by_cases hc : c.ip ∈ s.setKnown
  · rw [step_dup s c hc, stepEvents, AddTimeData_dup _ _ _ _ _ hc]
    exact ⟨rfl, rfl⟩
  · by_cases hsz : (s.vTimeOffsets.input c.nOffsetSample).size ≥ 5
    · have hm : ¬ (if abs64 (s.vTimeOffsets.input c.nOffsetSample).median > 15 * 60 then false
          else matchLoop (s.vTimeOffsets.input c.nOffsetSample).sorted) = false :=
        fun hm => h ⟨hc, hsz, hm⟩
      simp only [step, stepEvents, AddTimeData, if_neg hc, if_pos hsz, if_neg hm]
      refine ⟨trivial, ?_⟩
      cases c.fDebug <;> simp [countMessageBox, Event.isMessageBox]
    · simp only [step, stepEvents, AddTimeData, if_neg hc, if_neg hsz]
      exact ⟨trivial, by simp [countMessageBox, Event.isMessageBox]⟩

theorem step_warn (s : State CNetAddr) (c : Call CNetAddr) (h : warnStage s c) :
    (step s c).fDone = true ∧
    countMessageBox (stepEvents s c) = if s.fDone = true then 0 else 1 := by
  obtain ⟨hc, hsz, hm⟩ := h
  simp only [step, stepEvents, AddTimeData, if_neg hc, if_pos hsz, if_pos hm]
  refine ⟨trivial, ?_⟩
  cases c.fDebug <;> cases s.fDone <;> simp [countMessageBox, Event.isMessageBox]

theorem fDone_mono (cs : List (Call CNetAddr)) (s : State CNetAddr) (h : s.fDone = true) :
    (runState s cs).fDone = true := by
  induction cs generalizing s with
  | nil => exact h
  | cons c cs ih =>
    apply ih
    by_cases hw : warnStage s c
    · exact (step_warn s c hw).1
    · rw [(step_quiet s c hw).1]; exact h

theorem countMessageBox_run (cs : List (Call CNetAddr)) (s : State CNetAddr) :
    countMessageBox (runEvents s cs) =
      if s.fDone = true then 0 else if (runState s cs).fDone = true then 1 else 0 := by
  induction cs generalizing s with
  | nil =>
    show 0 = if s.fDone = true then 0 else if s.fDone = true then 1 else 0
    split_ifs <;> rfl
  | cons c cs ih =>
    have hsplit : countMessageBox (runEvents s (c :: cs)) =
        countMessageBox (stepEvents s c) + countMessageBox (runEvents (step s c) cs) := by
      simp [runEvents, countMessageBox]
    rw [hsplit, ih (step s c)]
    show _ = if s.fDone = true then 0 else if (runState (step s c) cs).fDone = true then 1 else 0
    by_cases hw : warnStage s c
    · obtain ⟨h1, h2⟩ := step_warn s c hw
      rw [h2, if_pos h1, fDone_mono cs _ h1, if_pos rfl, Nat.add_zero]
    · obtain ⟨h1, h2⟩ := step_quiet s c hw
      rw [h2, h1, Nat.zero_add]

theorem fDone_of_warnStage (s : State CNetAddr) (pre post : List (Call CNetAddr))
    (c : Call CNetAddr) (hw : warnStage (runState s pre) c) :
    (runState s (pre ++ c :: post)).fDone = true := by
  rw [runState_append]
  exact fDone_mono post _ (step_warn _ c hw).1

theorem warnStage_of_fDone (cs : List (Call CNetAddr)) (s : State CNetAddr)
    (h0 : s.fDone = false) (h : (runState s cs).fDone = true) :
    ∃ pre c post, cs = pre ++ c :: post ∧ warnStage (runState s pre) c := by
  induction cs generalizing s with
  | nil => rw [runState, h0] at h; exact absurd h (by decide)
  | cons c cs ih =>
    by_cases hw : warnStage s c
    · exact ⟨[], c, cs, rfl, hw⟩
    · have h1 : (step s c).fDone = false := by rw [(step_quiet s c hw).1]; exact h0
      obtain ⟨pre, c1, post, he, hw1⟩ := ih (step s c) h1 h
      exact ⟨c :: pre, c1, post, by rw [he]; rfl, hw1⟩

end Lemmas

section Policy

variable {CNetAddr : Type} [DecidableEq CNetAddr]

/-- The state after four distinct peers reported `x` from the initial state: fewer than 5
values are stored, so only the window and the filter have changed. -/
theorem runState_fourPeers (x : Int) :
    runState (State.init Nat) (fourPeers x) =
      { nTimeOffset := 0, setKnown := {4, 3, 2, 1}, listKnown := [4, 3, 2, 1],
        vTimeOffsets := { nSize := 200, initial_value := 0, vValues := [x, x, x, x] },
        fDone := false, strMiscWarning := "" } := by
  simp [fourPeers, runState, step, AddTimeData, State.init, prune_of_le, medianRange,
    CMedianFilter.input, CMedianFilter.size, CMedianFilter.create]

/-- Away from `INT64_MIN` the rejection threshold works: an admitted call that leaves at
least 5 values in the filter with a median `m`, `-2^63 < m < 2^63` and `|m| >= 4200`,
resets the offset to 0, whatever the configuration. -/
theorem offset_reset_of_large_median (t d : Bool) (s : State CNetAddr) (ip : CNetAddr)
    (x : Int) (hadm : ip ∉ s.setKnown) (h5 : 5 ≤ (s.vTimeOffsets.input x).size)
    (hlo : -(2 ^ 63) < (s.vTimeOffsets.input x).median)
    (hhi : (s.vTimeOffsets.input x).median < 2 ^ 63)
    (hm : 4200 ≤ |(s.vTimeOffsets.input x).median|) :
    GetTimeOffset (AddTimeData t d s ip x).1 = 0 := by
  have habs : abs64 (s.vTimeOffsets.input x).median = |(s.vTimeOffsets.input x).median| :=
    abs64_of_abs_lt (abs_lt.2 ⟨hlo, hhi⟩)
  rw [GetTimeOffset, AddTimeData_nTimeOffset _ _ _ _ _ hadm, if_pos h5, if_neg]
  rw [habs]
  intro hc
  have := hc.1
  omega

/-- C1 (code defect). The claim: an admitted call with the local clock not trusted that
leaves at least 5 values in the filter and whose median `m` has `|m| >= 4200` leaves the
offset at 0, for any 64-bit `m`. At `m = -2^63` the negation in `abs64` overflows, so
`abs64 m = -2^63 < 4200`: after four peers reporting `-2^63`, the call of a fifth peer
reporting `-2^63` is admitted, leaves 5 values with median `-2^63`, and `GetTimeOffset`
returns `-2^63` instead of 0. -/
theorem C1_rejection_fails_at_int64_min :
    (5 : Nat) ∉ (runState (State.init Nat) (fourPeers (-(2 ^ 63)))).setKnown ∧
    5 ≤ ((runState (State.init Nat) (fourPeers (-(2 ^ 63)))).vTimeOffsets.input (-(2 ^ 63))).size ∧
    ((runState (State.init Nat) (fourPeers (-(2 ^ 63)))).vTimeOffsets.input (-(2 ^ 63))).median
      = -(2 ^ 63) ∧
    (4200 : Int) ≤ |((runState (State.init Nat) (fourPeers (-(2 ^ 63)))).vTimeOffsets.input
      (-(2 ^ 63))).median| ∧
    GetTimeOffset (AddTimeData false false (runState (State.init Nat) (fourPeers (-(2 ^ 63))))
      5 (-(2 ^ 63))).1 = -(2 ^ 63) := by
  rw [runState_fourPeers]
  have hmed : (CMedianFilter.input
      ⟨200, 0, [-(2 ^ 63), -(2 ^ 63), -(2 ^ 63), -(2 ^ 63)]⟩ (-(2 ^ 63))).median
      = -(2 ^ 63) := by rw [median_eq]; decide
  have hsize : (CMedianFilter.input
      ⟨200, 0, [-(2 ^ 63), -(2 ^ 63), -(2 ^ 63), -(2 ^ 63)]⟩ (-(2 ^ 63))).size = 5 := by
    decide
  refine ⟨by decide, by rw [hsize], hmed, by rw [hmed]; norm_num, ?_⟩
  rw [GetTimeOffset, AddTimeData_nTimeOffset _ _ _ _ _ (by decide), hmed, hsize,
    abs64_int64_min]
  simp [medianRange]

/-- C2. An admitted call with the local clock not trusted that leaves `n` values in the
filter with `5 <= n < 200` and a median `m` with `|m| < 4200` makes `GetTimeOffset`
return exactly `m`. -/
theorem C2_accept_below_capacity (d : Bool) (s : State CNetAddr) (ip : CNetAddr) (x : Int)
    (hadm : ip ∉ s.setKnown)
    (h5 : 5 ≤ (s.vTimeOffsets.input x).size)
    (hlt : (s.vTimeOffsets.input x).size < 200)
    (hm : |(s.vTimeOffsets.input x).median| < 4200) :
    GetTimeOffset (AddTimeData false d s ip x).1 = (s.vTimeOffsets.input x).median := by
  have habs : abs64 (s.vTimeOffsets.input x).median < 70 * 60 := by
    rw [abs64_of_abs_lt (lt_trans hm (by norm_num))]
    exact hm
  rw [GetTimeOffset, AddTimeData_nTimeOffset _ _ _ _ _ hadm, if_pos h5, if_pos ⟨habs, rfl⟩,
    if_pos (by simpa [medianRange] using hlt)]

/-- C2, the example of the claim: five distinct peers all reporting 100 from the initial
state give offset 100. -/
theorem C2_accept_below_capacity_witness :
    (5 : Nat) ∉ (runState (State.init Nat) (fourPeers 100)).setKnown ∧
    5 ≤ ((runState (State.init Nat) (fourPeers 100)).vTimeOffsets.input 100).size ∧
    ((runState (State.init Nat) (fourPeers 100)).vTimeOffsets.input 100).size < 200 ∧
    |((runState (State.init Nat) (fourPeers 100)).vTimeOffsets.input 100).median| < 4200 ∧
    GetTimeOffset (AddTimeData false false (runState (State.init Nat) (fourPeers 100))
      5 100).1 = 100 := by
  have hmed : ((runState (State.init Nat) (fourPeers 100)).vTimeOffsets.input 100).median
      = 100 := by
    rw [runState_fourPeers, median_eq]; decide
  have hadm : (5 : Nat) ∉ (runState (State.init Nat) (fourPeers 100)).setKnown := by
    rw [runState_fourPeers]; decide
  have h5 : 5 ≤ ((runState (State.init Nat) (fourPeers 100)).vTimeOffsets.input 100).size := by
    rw [runState_fourPeers]; decide
  have hlt : ((runState (State.init Nat) (fourPeers 100)).vTimeOffsets.input 100).size
      < 200 := by
    rw [runState_fourPeers]; decide
  have hm : |((runState (State.init Nat) (fourPeers 100)).vTimeOffsets.input 100).median|
      < 4200 := by
    rw [hmed]; norm_num
  exact ⟨hadm, h5, hlt, hm,
    (C2_accept_below_capacity false _ 5 100 hadm h5 hlt hm).trans hmed⟩

/-- C3. An admitted call with the local clock not trusted that leaves exactly 200 values
in the filter with a median `m`, `|m| < 4200`, leaves the global offset as it was. -/
theorem C3_freeze_at_capacity (d : Bool) (s : State CNetAddr) (ip : CNetAddr) (x : Int)
    (hadm : ip ∉ s.setKnown)
    (hfull : (s.vTimeOffsets.input x).size = 200)
    (hm : |(s.vTimeOffsets.input x).median| < 4200) :
    GetTimeOffset (AddTimeData false d s ip x).1 = GetTimeOffset s := by
  have habs : abs64 (s.vTimeOffsets.input x).median < 70 * 60 := by
    rw [abs64_of_abs_lt (lt_trans hm (by norm_num))]
    exact hm
  rw [GetTimeOffset, AddTimeData_nTimeOffset _ _ _ _ _ hadm, if_pos (by omega),
    if_pos ⟨habs, rfl⟩, if_neg (by simp [medianRange, hfull])]
  rfl

/-- C4. An admitted call that leaves at least 5 values in the filter while the local
clock is trusted sets the global offset to 0, whatever the median and the filter size. -/
theorem C4_trust_override (d : Bool) (s : State CNetAddr) (ip : CNetAddr) (x : Int)
    (hadm : ip ∉ s.setKnown)
    (h5 : 5 ≤ (s.vTimeOffsets.input x).size) :
    GetTimeOffset (AddTimeData true d s ip x).1 = 0 := by
  rw [GetTimeOffset, AddTimeData_nTimeOffset _ _ _ _ _ hadm, if_pos h5, if_neg (by simp)]

set_option maxRecDepth 100000 in
/-- A full filter of samples equal to `50` that receives `60` holds 200 values. -/
theorem fullState_input_size :
    ((fullState 7 50).vTimeOffsets.input 60).size = 200 := by
  decide

set_option maxRecDepth 100000 in
/-- A full filter of samples equal to `50` that receives `60` has median `50`. -/
theorem fullState_input_median :
    ((fullState 7 50).vTimeOffsets.input 60).median = 50 := by
  rw [median_eq]
  decide

/-- C3 at a concrete state: the filter is full of samples 50, the offset is 7, and a new
peer reports 60. The median is 50 but the offset stays 7. -/
theorem C3_freeze_at_capacity_witness :
    (1 : Nat) ∉ (fullState 7 50).setKnown ∧
    ((fullState 7 50).vTimeOffsets.input 60).size = 200 ∧
    |((fullState 7 50).vTimeOffsets.input 60).median| < 4200 ∧
    ((fullState 7 50).vTimeOffsets.input 60).median = 50 ∧
    GetTimeOffset (AddTimeData false false (fullState 7 50) 1 60).1 = 7 :=
  ⟨by simp [fullState], fullState_input_size,
    by rw [fullState_input_median]; norm_num, fullState_input_median,
    C3_freeze_at_capacity false (fullState 7 50) 1 60 (by simp [fullState])
      fullState_input_size (by rw [fullState_input_median]; norm_num)⟩

/-- C4 at a concrete state with a full window: the filter is full of samples 50, the
offset is 7, the local clock is trusted, and the offset is reset to 0. -/
theorem C4_trust_override_witness :
    (1 : Nat) ∉ (fullState 7 50).setKnown ∧
    5 ≤ ((fullState 7 50).vTimeOffsets.input 60).size ∧
    GetTimeOffset (AddTimeData true false (fullState 7 50) 1 60).1 = 0 :=
  ⟨by simp [fullState], by rw [fullState_input_size]; norm_num,
    C4_trust_override false (fullState 7 50) 1 60 (by simp [fullState])
      (by rw [fullState_input_size]; norm_num)⟩

end Policy

section Window

variable {CNetAddr : Type} [DecidableEq CNetAddr]

/-- C6. In every reachable state, `AddTimeData(p, x)` followed immediately by
`AddTimeData(p, y)` leaves exactly the state left by the first call: the second call
returns that state unchanged (dedup set, recency list, filter, global offset, latch and
warning text) and makes no collaborator call at all, for all configurations of the two
calls. -/
theorem C6_dedup_idempotent (cs : List (Call CNetAddr)) (p : CNetAddr) (x y : Int)
    (t1 d1 t2 d2 : Bool) :
    AddTimeData t2 d2 (AddTimeData t1 d1 (runState (State.init CNetAddr) cs) p x).1 p y =
      ((AddTimeData t1 d1 (runState (State.init CNetAddr) cs) p x).1, []) :=
  AddTimeData_dup _ _ _ _ _ (mem_setKnown_after t1 d1 _ _ (Inv_reachable cs) p x)

/-- C7. In every state reachable from the initial state, the dedup set contains exactly
the identities of the recency list, the recency list has no repeated identity, and its
length is at most 200. -/
theorem C7_recency_window_invariant (cs : List (Call CNetAddr)) :
    (∀ p, p ∈ (runState (State.init CNetAddr) cs).setKnown ↔
      p ∈ (runState (State.init CNetAddr) cs).listKnown) ∧
    (runState (State.init CNetAddr) cs).listKnown.Nodup ∧
    (runState (State.init CNetAddr) cs).listKnown.length ≤ 200 :=
  ⟨(Inv_reachable cs).1, (Inv_reachable cs).2.1, (Inv_reachable cs).2.2.1⟩

/-- C8. (1) From the initial state, after the calls of 201 pairwise distinct identities
`p1, p2, rest` (in that order) the recency list is exactly `p2, rest` most recent first,
it has 200 entries, and `p1` is no longer in the dedup set; a following call for `p1` is
admitted: its sample is handed to the filter and is the newest stored value, `p1` is at
the front of the list and in the set, and `p2` has been evicted from both.
(2) In every reachable state with a full window, admitting a new identity removes exactly
the last (least recently admitted) entry of the list from the list and from the set. -/
theorem C8_fifo_bound_and_readmission :
    (∀ (cs : List (Call CNetAddr)) (p1 p2 : CNetAddr) (rest : List CNetAddr),
      cs.map Call.ip = p1 :: p2 :: rest → rest.length = 199 → (p1 :: p2 :: rest).Nodup →
      (runState (State.init CNetAddr) cs).listKnown = (p2 :: rest).reverse ∧
      (runState (State.init CNetAddr) cs).listKnown.length = 200 ∧
      p1 ∉ (runState (State.init CNetAddr) cs).setKnown ∧
      ∀ (t dbg : Bool) (x : Int),
        (AddTimeData t dbg (runState (State.init CNetAddr) cs) p1 x).1.vTimeOffsets =
          (runState (State.init CNetAddr) cs).vTimeOffsets.input x ∧
        (AddTimeData t dbg (runState (State.init CNetAddr) cs) p1 x).1.vTimeOffsets.vValues.getLast?
          = some x ∧
        (AddTimeData t dbg (runState (State.init CNetAddr) cs) p1 x).1.listKnown
          = p1 :: rest.reverse ∧
        p1 ∈ (AddTimeData t dbg (runState (State.init CNetAddr) cs) p1 x).1.setKnown ∧
        p2 ∉ (AddTimeData t dbg (runState (State.init CNetAddr) cs) p1 x).1.listKnown ∧
        p2 ∉ (AddTimeData t dbg (runState (State.init CNetAddr) cs) p1 x).1.setKnown) ∧
    (∀ (pre : List (Call CNetAddr)) (ip oldest : CNetAddr) (t dbg : Bool) (x : Int),
      (runState (State.init CNetAddr) pre).listKnown.length = 200 →
      ip ∉ (runState (State.init CNetAddr) pre).setKnown →
      (runState (State.init CNetAddr) pre).listKnown.getLast? = some oldest →
      (AddTimeData t dbg (runState (State.init CNetAddr) pre) ip x).1.listKnown =
        ip :: (runState (State.init CNetAddr) pre).listKnown.dropLast ∧
      (AddTimeData t dbg (runState (State.init CNetAddr) pre) ip x).1.setKnown =
        insert ip ((runState (State.init CNetAddr) pre).setKnown.erase oldest) ∧
      oldest ∉ (AddTimeData t dbg (runState (State.init CNetAddr) pre) ip x).1.listKnown ∧
      oldest ∉ (AddTimeData t dbg (runState (State.init CNetAddr) pre) ip x).1.setKnown) := by
  constructor
  · intro cs p1 p2 rest hips hlen hnd
    have hinv := Inv_reachable cs
    have hlist : (runState (State.init CNetAddr) cs).listKnown = (p2 :: rest).reverse := by
      rw [runState_fresh cs _ _ Inv_init (by rw [hips]; exact hnd)
        (by intro c _; simp [State.init]), hips]
      simp only [State.init, List.append_nil, List.reverse_cons, List.append_assoc]
      rw [← List.append_assoc, List.take_append_eq_append_take,
        List.take_of_length_le (by simp [medianRange, hlen])]
      simp [medianRange, hlen]
    have hlen200 : (runState (State.init CNetAddr) cs).listKnown.length = 200 := by
      rw [hlist]; simp [hlen]
    have hp1 : p1 ∉ (runState (State.init CNetAddr) cs).setKnown := by
      intro hm
      have := (hinv.1 p1).1 hm
      rw [hlist, List.mem_reverse] at this
      exact (List.nodup_cons.1 hnd).1 this
    refine ⟨hlist, hlen200, hp1, ?_⟩
    intro t dbg x
    have hlast : (runState (State.init CNetAddr) cs).listKnown.getLast? = some p2 := by
      rw [hlist, List.reverse_cons]; exact List.getLast?_concat _
    obtain ⟨h1, _, h3, h4⟩ := admit_full t dbg _ _ hinv p1 p2 x hlen200 hp1 hlast
    refine ⟨AddTimeData_vTimeOffsets _ _ _ _ _ hp1, ?_, ?_,
      mem_setKnown_after t dbg _ _ hinv p1 x, h3, h4⟩
    · rw [AddTimeData_vTimeOffsets _ _ _ _ _ hp1]
      exact input_getLast _ _ (by rw [hinv.2.2.2.1]; decide)
    · rw [h1, hlist, List.reverse_cons, List.dropLast_concat]
  · intro pre ip oldest t dbg x hlen hadm hlast
    exact admit_full t dbg _ _ (Inv_reachable pre) ip oldest x hlen hadm hlast

set_option maxRecDepth 100000 in
/-- C8 at the calls of the 201 peers `0, 1, ..., 200`: the window then holds `200, ..., 1`,
peer `0` is out of the set, and its next call is admitted and evicts peer `1`. -/
theorem C8_fifo_bound_and_readmission_witness :
    (distinctPeers 201).map Call.ip = 0 :: 1 :: List.range' 2 199 ∧
    (List.range' 2 199).length = 199 ∧
    (0 :: 1 :: List.range' 2 199).Nodup ∧
    (runState (State.init Nat) (distinctPeers 201)).listKnown = (1 :: List.range' 2 199).reverse ∧
    0 ∉ (runState (State.init Nat) (distinctPeers 201)).setKnown ∧
    (AddTimeData false false (runState (State.init Nat) (distinctPeers 201)) 0 7).1.listKnown
      = 0 :: (List.range' 2 199).reverse ∧
    1 ∉ (AddTimeData false false (runState (State.init Nat) (distinctPeers 201)) 0 7).1.setKnown :=
  have hips : (distinctPeers 201).map Call.ip = 0 :: 1 :: List.range' 2 199 := by decide
  have hlen : (List.range' 2 199).length = 199 := by decide
  have hnd : (0 :: 1 :: List.range' 2 199).Nodup := by decide
  have h := (C8_fifo_bound_and_readmission).1 (distinctPeers 201) 0 1 (List.range' 2 199)
    hips hlen hnd
  ⟨hips, hlen, hnd, h.1, h.2.2.1, (h.2.2.2 false false 7).2.2.1,
    (h.2.2.2 false false 7).2.2.2.2.2⟩

/-- C9. In every reachable state the samples stored in the filter (the seed is never
among them) correspond one to one, in order, to the ghost list of their contributors;
these contributors are pairwise distinct, each of them is currently in the recency list
and in the dedup set, and they are exactly the recency list read oldest first. So an
identity that has been evicted from the window has no sample left in the filter, and no
peer has two samples in one median. -/
theorem C9_one_live_sample_per_peer (cs : List (Call CNetAddr)) :
    (runTagged (State.init CNetAddr) [] cs).map Prod.snd =
      (runState (State.init CNetAddr) cs).vTimeOffsets.vValues ∧
    ((runTagged (State.init CNetAddr) [] cs).map Prod.fst).Nodup ∧
    (∀ p ∈ (runTagged (State.init CNetAddr) [] cs).map Prod.fst,
      p ∈ (runState (State.init CNetAddr) cs).listKnown ∧
      p ∈ (runState (State.init CNetAddr) cs).setKnown) ∧
    (runTagged (State.init CNetAddr) [] cs).map Prod.fst =
      (runState (State.init CNetAddr) cs).listKnown.reverse := by
  obtain ⟨hset, hnd, _, _, hsnd, hfst⟩ := Inv_reachable cs
  refine ⟨hsnd, ?_, ?_, hfst⟩
  · rw [hfst]; exact List.nodup_reverse.2 hnd
  · intro p hp
    rw [hfst, List.mem_reverse] at hp
    exact ⟨hp, (hset p).2 hp⟩

end Window

section Latch

variable {CNetAddr : Type} [DecidableEq CNetAddr]

/-- C5. From the initial state, after any sequence of calls made by fewer than 5 distinct
peers (each distinct peer is admitted at its first call, so these are the admitted
peers), `GetTimeOffset` still returns 0 and no warning has been raised: the latch is
unset, no warning text is stored, and every collaborator call is the "Added time data"
log line, whatever offsets were reported and whatever the configuration. -/
theorem C5_offset_untouched_below_five (cs : List (Call CNetAddr))
    (h : (cs.map Call.ip).toFinset.card < 5) :
    GetTimeOffset (runState (State.init CNetAddr) cs) = 0 ∧
    (runState (State.init CNetAddr) cs).fDone = false ∧
    (runState (State.init CNetAddr) cs).strMiscWarning = "" ∧
    countMessageBox (runEvents (State.init CNetAddr) cs) = 0 ∧
    ∀ e ∈ runEvents (State.init CNetAddr) cs, ∃ n x, e = Event.logAdded n x := by
  obtain ⟨h1, h2, h3, h4⟩ := quiet_below_five cs h
  refine ⟨h1, h2, h3, ?_, h4⟩
  rw [countMessageBox, List.countP_eq_zero]
  intro e he
  obtain ⟨n, x, rfl⟩ := h4 e he
  simp [Event.isMessageBox]

/-- C5 at the test of the claim: four distinct peers each reporting 100 with
`-trustlocalclock` unset. -/
theorem C5_offset_untouched_below_five_witness :
    ((fourPeers 100).map Call.ip).toFinset.card < 5 ∧
    GetTimeOffset (runState (State.init Nat) (fourPeers 100)) = 0 ∧
    (runState (State.init Nat) (fourPeers 100)).fDone = false ∧
    countMessageBox (runEvents (State.init Nat) (fourPeers 100)) = 0 :=
  have h := C5_offset_untouched_below_five (fourPeers 100) (by decide)
  ⟨by decide, h.1, h.2.1, h.2.2.2.1⟩

/-- C10. For every sequence of calls from the initial state, `ThreadSafeMessageBox` is
invoked at most once in total; it is invoked exactly once if some call of the sequence
reaches the warning stage with the disagreement condition true (and not at all
otherwise); and once the latch `fDone` is true it is true after every further sequence
of calls. -/
theorem C10_warning_latch (cs : List (Call CNetAddr)) :
    countMessageBox (runEvents (State.init CNetAddr) cs) ≤ 1 ∧
    ((∃ pre c post, cs = pre ++ c :: post ∧ warnStage (runState (State.init CNetAddr) pre) c) →
      countMessageBox (runEvents (State.init CNetAddr) cs) = 1) ∧
    ((¬ ∃ pre c post, cs = pre ++ c :: post ∧ warnStage (runState (State.init CNetAddr) pre) c) →
      countMessageBox (runEvents (State.init CNetAddr) cs) = 0) ∧
    (∀ post, (runState (State.init CNetAddr) cs).fDone = true →
      (runState (State.init CNetAddr) (cs ++ post)).fDone = true) := by
  have hcount := countMessageBox_run cs (State.init CNetAddr)
  rw [if_neg (by simp [State.init])] at hcount
  refine ⟨?_, ?_, ?_, ?_⟩
  · rw [hcount]; split_ifs <;> decide
  · rintro ⟨pre, c, post, rfl, hw⟩
    rw [hcount, if_pos (fDone_of_warnStage _ pre post c hw)]
  · intro hno
    rw [hcount, if_neg]
    intro hd
    exact hno (warnStage_of_fDone cs _ rfl hd)
  · intro post hd
    rw [runState_append]
    exact fDone_mono post _ hd

/-- The state after five distinct peers reported 0 from the initial state: the fifth
call reached the warning stage, so the latch is set and the warning text stored. -/
theorem runState_fivePeers_zero :
    runState (State.init Nat) (fourPeers 0 ++ [fifthPeer 0]) =
      { nTimeOffset := 0, setKnown := {5, 4, 3, 2, 1}, listKnown := [5, 4, 3, 2, 1],
        vTimeOffsets := { nSize := 200, initial_value := 0, vValues := [0, 0, 0, 0, 0] },
        fDone := true, strMiscWarning := strMessage } := by
  rw [runState_append, runState_fourPeers]
  have hmed : (CMedianFilter.input ⟨200, 0, [0, 0, 0, 0]⟩ 0).median = 0 := by
    rw [median_eq]; decide
  have hsort : (CMedianFilter.input ⟨200, 0, [0, 0, 0, 0]⟩ 0).sorted = [0, 0, 0, 0, 0] := by
    decide
  have hsize : (CMedianFilter.input ⟨200, 0, [0, 0, 0, 0]⟩ 0).size = 5 := by decide
  have hin : CMedianFilter.input ⟨200, 0, [0, 0, 0, 0]⟩ 0 = ⟨200, 0, [0, 0, 0, 0, 0]⟩ := by
    decide
  simp only [runState, step, AddTimeData, fifthPeer, hmed, hsort, hsize]
  simp [prune_of_le, medianRange, abs64, matchLoop, hin]

/-- The fifth of five peers reporting 0 reaches the warning stage with the disagreement
condition true. -/
theorem warnStage_fifth_zero :
    warnStage (runState (State.init Nat) (fourPeers 0)) (fifthPeer 0) := by
  rw [runState_fourPeers]; unfold warnStage; rw [median_eq]; decide

/-- The sixth of six peers reporting 0 reaches the warning stage with the disagreement
condition true. -/
theorem warnStage_sixth_zero :
    warnStage (runState (State.init Nat) (fourPeers 0 ++ [fifthPeer 0])) (sixthPeer 0) := by
  rw [runState_fivePeers_zero]; unfold warnStage; rw [median_eq]; decide

/-- C10 on six distinct peers all reporting 0: the fifth and the sixth call both reach the
warning stage with the disagreement condition true, and the message box is shown exactly
once. -/
theorem C10_warning_latch_witness :
    warnStage (runState (State.init Nat) (fourPeers 0)) (fifthPeer 0) ∧
    warnStage (runState (State.init Nat) (fourPeers 0 ++ [fifthPeer 0])) (sixthPeer 0) ∧
    countMessageBox (runEvents (State.init Nat)
      (fourPeers 0 ++ fifthPeer 0 :: [sixthPeer 0])) = 1 :=
  have hw5 : warnStage (runState (State.init Nat) (fourPeers 0)) (fifthPeer 0) :=
    warnStage_fifth_zero
  have hw6 : warnStage (runState (State.init Nat) (fourPeers 0 ++ [fifthPeer 0]))
      (sixthPeer 0) := warnStage_sixth_zero
  ⟨hw5, hw6, (C10_warning_latch (fourPeers 0 ++ fifthPeer 0 :: [sixthPeer 0])).2.1
    ⟨fourPeers 0, fifthPeer 0, [sixthPeer 0], rfl, hw5⟩⟩

end Latch

section Reading

variable {CNetAddr : Type}

/-- After five distinct peers reported 100 from the initial state the global offset is
100. -/
theorem offset_fivePeers_100 :
    GetTimeOffset (runState (State.init Nat) (fourPeers 100 ++ [fifthPeer 100])) = 100 := by
  rw [runState_append, runState_fourPeers]
  have hmed : (CMedianFilter.input ⟨200, 0, [100, 100, 100, 100]⟩ 100).median = 100 := by
    rw [median_eq]; decide
  have hsize : (CMedianFilter.input ⟨200, 0, [100, 100, 100, 100]⟩ 100).size = 5 := by
    decide
  show GetTimeOffset (AddTimeData false false _ 5 100).1 = 100
  rw [GetTimeOffset, AddTimeData_nTimeOffset _ _ _ _ _ (by decide), hmed, hsize]
  simp [medianRange, abs64]

/-- C14 as stated fails: after five peers reported 100 the offset is 100, and at the
clock reading `2^63 - 1` the 64-bit sum of line 35 is `-9223372036854775709`, not
`t + GetTimeOffset()`. -/
theorem C14_adjusted_time_wraps :
    GetTimeOffset (runState (State.init Nat) (fourPeers 100 ++ [fifthPeer 100])) = 100 ∧
    GetAdjustedTime (2 ^ 63 - 1) (runState (State.init Nat) (fourPeers 100 ++ [fifthPeer 100]))
      = -9223372036854775709 ∧
    GetAdjustedTime (2 ^ 63 - 1) (runState (State.init Nat) (fourPeers 100 ++ [fifthPeer 100]))
      ≠ (2 ^ 63 - 1) +
        GetTimeOffset (runState (State.init Nat) (fourPeers 100 ++ [fifthPeer 100])) := by
  refine ⟨offset_fivePeers_100, ?_, ?_⟩
  · rw [GetAdjustedTime, offset_fivePeers_100]; decide
  · rw [GetAdjustedTime, offset_fivePeers_100]; decide

/-- C14, amended. `GetTimeOffset` returns the current global offset (it is a function of
the state and produces no new state), it returns 0 before any `AddTimeData` call, and for
every state and every clock reading `t` for which `t + GetTimeOffset()` is representable
as an `int64_t`, `GetAdjustedTime` returns `t + GetTimeOffset()`. -/
theorem C14_read_interface :
    (∀ s : State CNetAddr, GetTimeOffset s = s.nTimeOffset) ∧
    GetTimeOffset (State.init CNetAddr) = 0 ∧
    (∀ (s : State CNetAddr) (t : Int), inInt64 (t + GetTimeOffset s) →
      GetAdjustedTime t s = t + GetTimeOffset s) :=
  ⟨fun _ => rfl, rfl, fun _ _ h => wrap64_of_inInt64 h⟩

/-- C14, amended, at the clock reading 1400000000 after five peers reported 100: the
sum is representable and the adjusted time is 1400000100. -/
theorem C14_read_interface_witness :
    inInt64 (1400000000 +
      GetTimeOffset (runState (State.init Nat) (fourPeers 100 ++ [fifthPeer 100]))) ∧
    GetAdjustedTime 1400000000 (runState (State.init Nat) (fourPeers 100 ++ [fifthPeer 100]))
      = 1400000100 :=
  have hin : inInt64 (1400000000 +
      GetTimeOffset (runState (State.init Nat) (fourPeers 100 ++ [fifthPeer 100]))) := by
    rw [offset_fivePeers_100]; decide
  ⟨hin, by
    rw [(C14_read_interface).2.2 _ 1400000000 hin, offset_fivePeers_100]
    rfl⟩

end Reading

section Independence

variable {CNetAddr : Type} [DecidableEq CNetAddr]

/-- C16. For two states that agree on the global offset, the dedup set, the recency list
and the filter (so they differ at most in the latch and the stored warning text), the
same call with the same configuration yields the same global offset, dedup set, recency
list and filter contents. -/
theorem C16_policy_independent_of_latch (t d : Bool) (s1 s2 : State CNetAddr)
    (ip : CNetAddr) (x : Int)
    (ho : s1.nTimeOffset = s2.nTimeOffset) (hs : s1.setKnown = s2.setKnown)
    (hl : s1.listKnown = s2.listKnown) (hf : s1.vTimeOffsets = s2.vTimeOffsets) :
    (AddTimeData t d s1 ip x).1.nTimeOffset = (AddTimeData t d s2 ip x).1.nTimeOffset ∧
    (AddTimeData t d s1 ip x).1.setKnown = (AddTimeData t d s2 ip x).1.setKnown ∧
    (AddTimeData t d s1 ip x).1.listKnown = (AddTimeData t d s2 ip x).1.listKnown ∧
    (AddTimeData t d s1 ip x).1.vTimeOffsets = (AddTimeData t d s2 ip x).1.vTimeOffsets := by
  by_cases h : ip ∈ s1.setKnown
  · have h2 : ip ∈ s2.setKnown := hs ▸ h
    rw [AddTimeData_dup _ _ _ _ _ h, AddTimeData_dup _ _ _ _ _ h2]
    exact ⟨ho, hs, hl, hf⟩
  · have h2 : ip ∉ s2.setKnown := hs ▸ h
    rw [AddTimeData_nTimeOffset _ _ _ _ _ h, AddTimeData_nTimeOffset _ _ _ _ _ h2,
      AddTimeData_setKnown _ _ _ _ _ h, AddTimeData_setKnown _ _ _ _ _ h2,
      AddTimeData_listKnown _ _ _ _ _ h, AddTimeData_listKnown _ _ _ _ _ h2,
      AddTimeData_vTimeOffsets _ _ _ _ _ h, AddTimeData_vTimeOffsets _ _ _ _ _ h2,
      ho, hs, hl, hf]
    exact ⟨rfl, rfl, rfl, rfl⟩

/-- C16 at the state after four peers reported 0 and the same state with the latch set:
the fifth peer reporting 0 (a call that reaches the warning stage) leaves the same
offset, set, list and filter in both. -/
theorem C16_policy_independent_of_latch_witness :
    (runState (State.init Nat) (fourPeers 0)).fDone ≠
      (latched (runState (State.init Nat) (fourPeers 0))).fDone ∧
    (AddTimeData false false (runState (State.init Nat) (fourPeers 0)) 5 0).1.nTimeOffset =
      (AddTimeData false false (latched (runState (State.init Nat) (fourPeers 0))) 5 0).1.nTimeOffset ∧
    (AddTimeData false false (runState (State.init Nat) (fourPeers 0)) 5 0).1.vTimeOffsets =
      (AddTimeData false false (latched (runState (State.init Nat) (fourPeers 0))) 5 0).1.vTimeOffsets :=
  have h := C16_policy_independent_of_latch false false
    (runState (State.init Nat) (fourPeers 0)) (latched (runState (State.init Nat) (fourPeers 0)))
    5 0 rfl rfl rfl rfl
  ⟨by rw [runState_fourPeers]; decide, h.1, h.2.2.2⟩

end Independence

section WarningLemmas

variable {CNetAddr : Type} [DecidableEq CNetAddr]

theorem abs64_eq_abs {v : Int} (h : -(2 ^ 63) < v) : abs64 v = |v| := by
  unfold abs64
  split_ifs with hn
  · exact (abs_of_nonneg hn).symm
  · rw [wrap64_of_inInt64 (by unfold inInt64; omega), abs_of_neg (by omega)]

theorem foldl_match (l : List Int) (acc : Bool) :
    l.foldl (fun fMatch nOffset =>
      if nOffset ≠ 0 ∧ abs64 nOffset < 5 * 60 then true else fMatch) acc = true ↔
    acc = true ∨ ∃ v ∈ l, v ≠ 0 ∧ abs64 v < 5 * 60 := by
  induction l generalizing acc with
  | nil => simp
  | cons a l ih =>
    rw [List.foldl_cons, ih]
    by_cases ha : a ≠ 0 ∧ abs64 a < 5 * 60
    · rw [if_pos ha]
      constructor
      · intro _; exact Or.inr ⟨a, List.mem_cons_self _ _, ha⟩
      · intro _; exact Or.inl rfl
    · rw [if_neg ha]
      constructor
      · rintro (h | ⟨v, hv, hp⟩)
        · exact Or.inl h
        · exact Or.inr ⟨v, List.mem_cons_of_mem _ hv, hp⟩
      · rintro (h | ⟨v, hv, hp⟩)
        · exact Or.inl h
        · rcases List.mem_cons.1 hv with he | hv
          · exact absurd (he ▸ hp) ha
          · exact Or.inr ⟨v, hv, hp⟩

theorem matchLoop_eq_true (l : List Int) :
    matchLoop l = true ↔ ∃ v ∈ l, v ≠ 0 ∧ abs64 v < 5 * 60 := by
  rw [matchLoop, foldl_match]
  simp

theorem mem_sorted (f : CMedianFilter) (v : Int) : v ∈ f.sorted ↔ v ∈ f.vValues :=
  (List.perm_insertionSort _ _).mem_iff

theorem sorted_length (f : CMedianFilter) : f.sorted.length = f.size :=
  List.length_insertionSort _ _

theorem getD_all_zero (l : List Int) (i : Nat) (h : ∀ v ∈ l, v = 0) : l.getD i 0 = 0 := by
  induction l generalizing i with
  | nil => rfl
  | cons a l ih =>
    cases i with
    | zero => exact h a (List.mem_cons_self _ _)
    | succ i => exact ih i (fun v hv => h v (List.mem_cons_of_mem _ hv))

theorem median_all_zero (f : CMedianFilter) (hne : f.size ≠ 0)
    (h : ∀ v ∈ f.vValues, v = 0) : f.median = 0 := by
  have hs : ∀ v ∈ f.sorted, v = 0 := fun v hv => h v ((mem_sorted f v).1 hv)
  rw [median_eq, if_neg (by rw [sorted_length]; exact hne)]
  split_ifs
  · exact getD_all_zero _ _ hs
  · rw [getD_all_zero _ _ hs, getD_all_zero _ _ hs]; decide

/-- The warning line of the log and the stored warning text are written by exactly the
calls that reach the warning stage with the disagreement condition true. -/
theorem warn_effects (s : State CNetAddr) (c : Call CNetAddr) (h : warnStage s c) :
    Event.logWarning strMessage ∈ stepEvents s c ∧
    (step s c).strMiscWarning = strMessage := by
  obtain ⟨hc, hsz, hm⟩ := h
  simp only [step, stepEvents, AddTimeData, if_neg hc, if_pos hsz, if_pos hm]
  exact ⟨by simp, trivial⟩

theorem quiet_effects (s : State CNetAddr) (c : Call CNetAddr) (h : ¬ warnStage s c) :
    (∀ e ∈ stepEvents s c, e.isLogWarning = false) ∧
    (step s c).strMiscWarning = s.strMiscWarning := by
  unfold warnStage at h
  by_cases hc : c.ip ∈ s.setKnown
  · rw [step_dup s c hc, stepEvents, AddTimeData_dup _ _ _ _ _ hc]
    exact ⟨by simp, rfl⟩
  · by_cases hsz : (s.vTimeOffsets.input c.nOffsetSample).size ≥ 5
    · have hm : ¬ (if abs64 (s.vTimeOffsets.input c.nOffsetSample).median > 15 * 60 then false
          else matchLoop (s.vTimeOffsets.input c.nOffsetSample).sorted) = false :=
        fun hm => h ⟨hc, hsz, hm⟩
      simp only [step, stepEvents, AddTimeData, if_neg hc, if_pos hsz, if_neg hm]
      refine ⟨?_, trivial⟩
      cases c.fDebug <;> simp [Event.isLogWarning]
    · simp only [step, stepEvents, AddTimeData, if_neg hc, if_neg hsz]
      exact ⟨by simp [Event.isLogWarning], trivial⟩

theorem countMessageBox_step (s : State CNetAddr) (c : Call CNetAddr) :
    countMessageBox (stepEvents s c) =
      if warnStage s c ∧ s.fDone = false then 1 else 0 := by
  by_cases hw : warnStage s c
  · rw [(step_warn s c hw).2]
    cases s.fDone <;> simp [hw]
  · rw [(step_quiet s c hw).2, if_neg (fun h => hw h.1)]

theorem sets_latch_iff (s : State CNetAddr) (c : Call CNetAddr) :
    (s.fDone = false ∧ (step s c).fDone = true) ↔ (warnStage s c ∧ s.fDone = false) := by
  by_cases hw : warnStage s c
  · simp [(step_warn s c hw).1, hw, and_comm]
  · rw [(step_quiet s c hw).1]
    constructor
    · rintro ⟨h1, h2⟩; rw [h1] at h2; exact absurd h2 (by decide)
    · rintro ⟨h1, _⟩; exact absurd h1 hw

end WarningLemmas

section Divergence

variable {CNetAddr : Type} [DecidableEq CNetAddr]

omit [DecidableEq CNetAddr] in
/-- The condition of line 92 in terms of the stored offsets and the median. -/
theorem warnStage_iff (s : State CNetAddr) (c : Call CNetAddr)
    (hadm : c.ip ∉ s.setKnown)
    (h5 : 5 ≤ (s.vTimeOffsets.input c.nOffsetSample).size)
    (hv : ∀ v ∈ (s.vTimeOffsets.input c.nOffsetSample).vValues, -(2 ^ 63) < v)
    (hm : -(2 ^ 63) < (s.vTimeOffsets.input c.nOffsetSample).median) :
    warnStage s c ↔
      (|(s.vTimeOffsets.input c.nOffsetSample).median| > 900 ∨
        ¬ ∃ v ∈ (s.vTimeOffsets.input c.nOffsetSample).vValues, v ≠ 0 ∧ |v| < 300) := by
  have hiff : (∃ v ∈ (s.vTimeOffsets.input c.nOffsetSample).sorted,
        v ≠ 0 ∧ abs64 v < 5 * 60) ↔
      ∃ v ∈ (s.vTimeOffsets.input c.nOffsetSample).vValues, v ≠ 0 ∧ |v| < 300 := by
    constructor
    · rintro ⟨v, hmem, hne, hlt⟩
      have hmem2 := (mem_sorted _ v).1 hmem
      rw [abs64_eq_abs (hv v hmem2)] at hlt
      exact ⟨v, hmem2, hne, hlt⟩
    · rintro ⟨v, hmem, hne, hlt⟩
      refine ⟨v, (mem_sorted _ v).2 hmem, hne, ?_⟩
      rw [abs64_eq_abs (hv v hmem)]
      exact hlt
  unfold warnStage
  rw [abs64_eq_abs hm]
  constructor
  · rintro ⟨_, _, hf⟩
    by_cases hbig : |(s.vTimeOffsets.input c.nOffsetSample).median| > 900
    · exact Or.inl hbig
    · right
      rw [if_neg (by simpa using hbig)] at hf
      intro hex
      have := (matchLoop_eq_true _).2 (hiff.2 hex)
      rw [hf] at this
      exact absurd this (by decide)
  · intro h
    refine ⟨hadm, h5, ?_⟩
    by_cases hbig : |(s.vTimeOffsets.input c.nOffsetSample).median| > 900
    · rw [if_pos (by simpa using hbig)]
    · rw [if_neg (by simpa using hbig)]
      rcases h with h | h
      · exact absurd h hbig
      · cases hml : matchLoop (s.vTimeOffsets.input c.nOffsetSample).sorted with
        | false => rfl
        | true => exact absurd (hiff.1 ((matchLoop_eq_true _).1 hml)) h

theorem logWarning_mem_iff (s : State CNetAddr) (c : Call CNetAddr) :
    Event.logWarning strMessage ∈ stepEvents s c ↔ warnStage s c := by
  constructor
  · intro hmem
    by_contra hw
    have := (quiet_effects s c hw).1 _ hmem
    simp [Event.isLogWarning] at this
  · intro hw; exact (warn_effects s c hw).1

theorem fDone_step_iff (s : State CNetAddr) (c : Call CNetAddr) :
    (step s c).fDone = true ↔ (s.fDone = true ∨ warnStage s c) := by
  by_cases hw : warnStage s c
  · simp [(step_warn s c hw).1, hw]
  · rw [(step_quiet s c hw).1]
    simp [hw]

/-- C11. For an admitted call that leaves at least 5 values in the filter, all of them and
the median greater than `-2^63`, let the divergence condition be: `|median| > 900` or no
stored offset `v` has both `v != 0` and `|v| < 300` (a stored 0 never counts as
agreement). Then the call takes the warning branch of line 92 exactly under this
condition: it writes the warning line to the log if and only if the condition holds, the
latch is set after the call if and only if it was set before or the condition holds, and
the user-notification sink is called (once) if and only if the latch was not set and the
condition holds. -/
theorem C11_divergence_rule (s : State CNetAddr) (c : Call CNetAddr)
    (hadm : c.ip ∉ s.setKnown)
    (h5 : 5 ≤ (s.vTimeOffsets.input c.nOffsetSample).size)
    (hv : ∀ v ∈ (s.vTimeOffsets.input c.nOffsetSample).vValues, -(2 ^ 63) < v)
    (hm : -(2 ^ 63) < (s.vTimeOffsets.input c.nOffsetSample).median) :
    (Event.logWarning strMessage ∈ stepEvents s c ↔
      (|(s.vTimeOffsets.input c.nOffsetSample).median| > 900 ∨
        ¬ ∃ v ∈ (s.vTimeOffsets.input c.nOffsetSample).vValues, v ≠ 0 ∧ |v| < 300)) ∧
    ((step s c).fDone = true ↔
      (s.fDone = true ∨
        (|(s.vTimeOffsets.input c.nOffsetSample).median| > 900 ∨
          ¬ ∃ v ∈ (s.vTimeOffsets.input c.nOffsetSample).vValues, v ≠ 0 ∧ |v| < 300))) ∧
    (countMessageBox (stepEvents s c) = 1 ↔
      (s.fDone = false ∧
        (|(s.vTimeOffsets.input c.nOffsetSample).median| > 900 ∨
          ¬ ∃ v ∈ (s.vTimeOffsets.input c.nOffsetSample).vValues, v ≠ 0 ∧ |v| < 300))) ∧
    (warnStage s c ↔
      (|(s.vTimeOffsets.input c.nOffsetSample).median| > 900 ∨
        ¬ ∃ v ∈ (s.vTimeOffsets.input c.nOffsetSample).vValues, v ≠ 0 ∧ |v| < 300)) := by
  have hw := warnStage_iff s c hadm h5 hv hm
  refine ⟨(logWarning_mem_iff s c).trans hw, ?_, ?_, hw⟩
  · rw [fDone_step_iff, hw]
  · rw [countMessageBox_step, ← hw]
    by_cases h : warnStage s c ∧ s.fDone = false
    · rw [if_pos h]; exact ⟨fun _ => ⟨h.2, h.1⟩, fun _ => rfl⟩
    · rw [if_neg h]
      exact ⟨fun h0 => absurd h0 (by decide), fun h1 => absurd ⟨h1.2, h1.1⟩ h⟩

/-- C11 at two calls. The fifth of five peers all reporting 100: the stored value 100 is
nonzero and within 5 minutes and the median is 100, so no warning line is logged. The
fifth of five peers all reporting 0: no stored value is nonzero, so the warning line is
logged. -/
theorem C11_divergence_rule_witness :
    ((fifthPeer 100).ip ∉ (runState (State.init Nat) (fourPeers 100)).setKnown ∧
      5 ≤ ((runState (State.init Nat) (fourPeers 100)).vTimeOffsets.input
        (fifthPeer 100).nOffsetSample).size ∧
      (∀ v ∈ ((runState (State.init Nat) (fourPeers 100)).vTimeOffsets.input
        (fifthPeer 100).nOffsetSample).vValues, -(2 ^ 63) < v) ∧
      -(2 ^ 63) < ((runState (State.init Nat) (fourPeers 100)).vTimeOffsets.input
        (fifthPeer 100).nOffsetSample).median ∧
      Event.logWarning strMessage ∉
        stepEvents (runState (State.init Nat) (fourPeers 100)) (fifthPeer 100)) ∧
    ((fifthPeer 0).ip ∉ (runState (State.init Nat) (fourPeers 0)).setKnown ∧
      5 ≤ ((runState (State.init Nat) (fourPeers 0)).vTimeOffsets.input
        (fifthPeer 0).nOffsetSample).size ∧
      (∀ v ∈ ((runState (State.init Nat) (fourPeers 0)).vTimeOffsets.input
        (fifthPeer 0).nOffsetSample).vValues, -(2 ^ 63) < v) ∧
      -(2 ^ 63) < ((runState (State.init Nat) (fourPeers 0)).vTimeOffsets.input
        (fifthPeer 0).nOffsetSample).median ∧
      Event.logWarning strMessage ∈
        stepEvents (runState (State.init Nat) (fourPeers 0)) (fifthPeer 0)) := by
  have hmed100 : ((runState (State.init Nat) (fourPeers 100)).vTimeOffsets.input
      (fifthPeer 100).nOffsetSample).median = 100 := by
    rw [runState_fourPeers, median_eq]; decide
  have hvals100 : ((runState (State.init Nat) (fourPeers 100)).vTimeOffsets.input
      (fifthPeer 100).nOffsetSample).vValues = [100, 100, 100, 100, 100] := by
    rw [runState_fourPeers]; decide
  have hmed0 : ((runState (State.init Nat) (fourPeers 0)).vTimeOffsets.input
      (fifthPeer 0).nOffsetSample).median = 0 := by
    rw [runState_fourPeers, median_eq]; decide
  have hvals0 : ((runState (State.init Nat) (fourPeers 0)).vTimeOffsets.input
      (fifthPeer 0).nOffsetSample).vValues = [0, 0, 0, 0, 0] := by
    rw [runState_fourPeers]; decide
  have ha100 : (fifthPeer 100).ip ∉ (runState (State.init Nat) (fourPeers 100)).setKnown := by
    rw [runState_fourPeers]; decide
  have ha0 : (fifthPeer 0).ip ∉ (runState (State.init Nat) (fourPeers 0)).setKnown := by
    rw [runState_fourPeers]; decide
  have h5a : 5 ≤ ((runState (State.init Nat) (fourPeers 100)).vTimeOffsets.input
      (fifthPeer 100).nOffsetSample).size := by
    rw [CMedianFilter.size, hvals100]; decide
  have h5b : 5 ≤ ((runState (State.init Nat) (fourPeers 0)).vTimeOffsets.input
      (fifthPeer 0).nOffsetSample).size := by
    rw [CMedianFilter.size, hvals0]; decide
  have hva : ∀ v ∈ ((runState (State.init Nat) (fourPeers 100)).vTimeOffsets.input
      (fifthPeer 100).nOffsetSample).vValues, -(2 ^ 63) < v := by
    rw [hvals100]; decide
  have hvb : ∀ v ∈ ((runState (State.init Nat) (fourPeers 0)).vTimeOffsets.input
      (fifthPeer 0).nOffsetSample).vValues, -(2 ^ 63) < v := by
    rw [hvals0]; decide
  have hma : -(2 ^ 63) < ((runState (State.init Nat) (fourPeers 100)).vTimeOffsets.input
      (fifthPeer 100).nOffsetSample).median := by
    rw [hmed100]; decide
  have hmb : -(2 ^ 63) < ((runState (State.init Nat) (fourPeers 0)).vTimeOffsets.input
      (fifthPeer 0).nOffsetSample).median := by
    rw [hmed0]; decide
  have t100 := (C11_divergence_rule (runState (State.init Nat) (fourPeers 100))
    (fifthPeer 100) ha100 h5a hva hma).1
  have t0 := (C11_divergence_rule (runState (State.init Nat) (fourPeers 0))
    (fifthPeer 0) ha0 h5b hvb hmb).1
  refine ⟨⟨ha100, h5a, hva, hma, ?_⟩, ⟨ha0, h5b, hvb, hmb, ?_⟩⟩
  · rw [t100, hmed100, hvals100]
    rintro (h | h)
    · norm_num at h
    · exact h ⟨100, by simp, by norm_num, by norm_num⟩
  · rw [t0, hmed0, hvals0]
    right
    rintro ⟨v, hv, hne, _⟩
    simp at hv
    exact hne hv

end Divergence

section Notification

variable {CNetAddr : Type} [DecidableEq CNetAddr]

/-- C12 as stated fails: after five peers reported 0 the latch is set; the call of a
sixth peer reporting 0 has the disagreement condition true and does write the warning
line to the log. -/
theorem C12_log_written_with_latch_set :
    (runState (State.init Nat) (fourPeers 0 ++ [fifthPeer 0])).fDone = true ∧
    warnStage (runState (State.init Nat) (fourPeers 0 ++ [fifthPeer 0])) (sixthPeer 0) ∧
    Event.logWarning strMessage ∈
      stepEvents (runState (State.init Nat) (fourPeers 0 ++ [fifthPeer 0])) (sixthPeer 0) := by
  have hw : warnStage (runState (State.init Nat) (fourPeers 0 ++ [fifthPeer 0]))
      (sixthPeer 0) := warnStage_sixth_zero
  exact ⟨by rw [runState_fivePeers_zero], hw, (warn_effects _ _ hw).1⟩

/-- C12, amended. The user-notification sink is called only by the call that sets the
latch, and exactly once by it. The warning line of the log and the assignment of the
warning text are not guarded by the latch: they happen on exactly the calls whose
disagreement condition is true. So in a state where the latch is already set, such a
call does not call the sink, but it writes the warning line and stores the fixed warning
text. -/
theorem C12_message_box_only_when_latch_fires (s : State CNetAddr) (c : Call CNetAddr) :
    (countMessageBox (stepEvents s c) =
      if s.fDone = false ∧ (step s c).fDone = true then 1 else 0) ∧
    (Event.logWarning strMessage ∈ stepEvents s c ↔ warnStage s c) ∧
    (warnStage s c → (step s c).strMiscWarning = strMessage) ∧
    (¬ warnStage s c → (step s c).strMiscWarning = s.strMiscWarning) ∧
    (s.fDone = true → warnStage s c →
      countMessageBox (stepEvents s c) = 0 ∧
      Event.logWarning strMessage ∈ stepEvents s c ∧
      (step s c).strMiscWarning = strMessage ∧
      (step s c).fDone = true) := by
  refine ⟨?_, ?_, fun hw => (warn_effects s c hw).2, fun hw => (quiet_effects s c hw).2, ?_⟩
  · rw [countMessageBox_step]
    by_cases h : warnStage s c ∧ s.fDone = false
    · rw [if_pos h, if_pos ((sets_latch_iff s c).2 h)]
    · rw [if_neg h, if_neg (fun h2 => h ((sets_latch_iff s c).1 h2))]
  · constructor
    · intro hmem
      by_contra hw
      have := (quiet_effects s c hw).1 _ hmem
      simp [Event.isLogWarning] at this
    · intro hw; exact (warn_effects s c hw).1
  · intro hd hw
    refine ⟨?_, (warn_effects s c hw).1, (warn_effects s c hw).2, (step_warn s c hw).1⟩
    rw [(step_warn s c hw).2, if_pos hd]

/-- C12, amended, at the sixth of six peers all reporting 0 (the latch was set by the
fifth): no message box, but the warning line is logged and the text stored. -/
theorem C12_message_box_only_when_latch_fires_witness :
    countMessageBox (stepEvents (runState (State.init Nat) (fourPeers 0 ++ [fifthPeer 0]))
      (sixthPeer 0)) = 0 ∧
    (step (runState (State.init Nat) (fourPeers 0 ++ [fifthPeer 0]))
      (sixthPeer 0)).strMiscWarning = strMessage :=
  have hd : (runState (State.init Nat) (fourPeers 0 ++ [fifthPeer 0])).fDone = true := by
    rw [runState_fivePeers_zero]
  have hw : warnStage (runState (State.init Nat) (fourPeers 0 ++ [fifthPeer 0]))
      (sixthPeer 0) := warnStage_sixth_zero
  have h := (C12_message_box_only_when_latch_fires
    (runState (State.init Nat) (fourPeers 0 ++ [fifthPeer 0])) (sixthPeer 0)).2.2.2.2 hd hw
  ⟨h.1, h.2.2.1⟩

/-- C17 as stated fails: from the initial state, when five distinct peers all report 0,
the fifth call is admitted and leaves 5 stored offsets, all 0, and yet it sets the latch
and calls the user-notification sink once. -/
theorem C17_all_zero_raises_warning :
    (fifthPeer 0).ip ∉ (runState (State.init Nat) (fourPeers 0)).setKnown ∧
    5 ≤ ((runState (State.init Nat) (fourPeers 0)).vTimeOffsets.input 0).size ∧
    (∀ v ∈ ((runState (State.init Nat) (fourPeers 0)).vTimeOffsets.input 0).vValues, v = 0) ∧
    (runState (State.init Nat) (fourPeers 0)).fDone = false ∧
    (step (runState (State.init Nat) (fourPeers 0)) (fifthPeer 0)).fDone = true ∧
    countMessageBox (stepEvents (runState (State.init Nat) (fourPeers 0)) (fifthPeer 0)) = 1 := by
  have hw : warnStage (runState (State.init Nat) (fourPeers 0)) (fifthPeer 0) :=
    warnStage_fifth_zero
  have hd : (runState (State.init Nat) (fourPeers 0)).fDone = false := by
    rw [runState_fourPeers]
  refine ⟨by rw [runState_fourPeers]; decide, by rw [runState_fourPeers]; decide,
    by rw [runState_fourPeers]; decide, hd, (step_warn _ _ hw).1, ?_⟩
  rw [(step_warn _ _ hw).2, hd]
  rfl

/-- C17, amended. The warning is raised when no stored offset is both different from 0 and
within 5 minutes (line 85), so peers that all agree exactly with the local clock do raise
it: an admitted call that leaves at least 5 stored offsets, all equal to 0, reaches the
warning stage with the disagreement condition true, the latch is set after it, and the
user-notification sink is called by it exactly when the latch was not set before. -/
theorem C17_warning_when_all_zero (s : State CNetAddr) (c : Call CNetAddr)
    (hadm : c.ip ∉ s.setKnown)
    (h5 : 5 ≤ (s.vTimeOffsets.input c.nOffsetSample).size)
    (hz : ∀ v ∈ (s.vTimeOffsets.input c.nOffsetSample).vValues, v = 0) :
    (s.vTimeOffsets.input c.nOffsetSample).median = 0 ∧
    warnStage s c ∧
    (step s c).fDone = true ∧
    countMessageBox (stepEvents s c) = if s.fDone = true then 0 else 1 := by
  have hmed := median_all_zero _ (by omega) hz
  have hw : warnStage s c := by
    refine ⟨hadm, h5, ?_⟩
    rw [hmed, if_neg (by decide)]
    cases hml : matchLoop (s.vTimeOffsets.input c.nOffsetSample).sorted with
    | false => rfl
    | true =>
      obtain ⟨v, hmem, hne, _⟩ := (matchLoop_eq_true _).1 hml
      exact absurd (hz v ((mem_sorted _ v).1 hmem)) hne
  exact ⟨hmed, hw, (step_warn s c hw).1, (step_warn s c hw).2⟩

/-- C17, amended, at the sixth of six peers all reporting 0: the disagreement condition
is true again, the latch stays set and the sink is not called a second time. -/
theorem C17_warning_when_all_zero_witness :
    (sixthPeer 0).ip ∉ (runState (State.init Nat) (fourPeers 0 ++ [fifthPeer 0])).setKnown ∧
    5 ≤ ((runState (State.init Nat) (fourPeers 0 ++ [fifthPeer 0])).vTimeOffsets.input
      (sixthPeer 0).nOffsetSample).size ∧
    (∀ v ∈ ((runState (State.init Nat) (fourPeers 0 ++ [fifthPeer 0])).vTimeOffsets.input
      (sixthPeer 0).nOffsetSample).vValues, v = 0) ∧
    warnStage (runState (State.init Nat) (fourPeers 0 ++ [fifthPeer 0])) (sixthPeer 0) ∧
    (step (runState (State.init Nat) (fourPeers 0 ++ [fifthPeer 0])) (sixthPeer 0)).fDone
      = true :=
  have hadm : (sixthPeer 0).ip ∉
      (runState (State.init Nat) (fourPeers 0 ++ [fifthPeer 0])).setKnown := by
    rw [runState_fivePeers_zero]; decide
  have h5 : 5 ≤ ((runState (State.init Nat) (fourPeers 0 ++ [fifthPeer 0])).vTimeOffsets.input
      (sixthPeer 0).nOffsetSample).size := by
    rw [runState_fivePeers_zero]; decide
  have hz : ∀ v ∈ ((runState (State.init Nat) (fourPeers 0 ++ [fifthPeer 0])).vTimeOffsets.input
      (sixthPeer 0).nOffsetSample).vValues, v = 0 := by
    rw [runState_fivePeers_zero]; decide
  have h := C17_warning_when_all_zero
    (runState (State.init Nat) (fourPeers 0 ++ [fifthPeer 0])) (sixthPeer 0) hadm h5 hz
  ⟨hadm, h5, hz, h.2.1, h.2.2.1⟩

end Notification

section Median

theorem Median_odd (f : CMedianFilter) (hodd : f.size % 2 = 1) :
    ∃ m, f.sorted[f.size / 2]? = some m ∧ f.Median = (m : ℚ) := by
  have hlt : f.size / 2 < f.sorted.length := by rw [sorted_length]; omega
  refine ⟨f.sorted[f.size / 2], List.getElem?_eq_getElem hlt, ?_⟩
  unfold CMedianFilter.Median
  simp only [sorted_length]
  rw [if_neg (by omega), if_pos hodd, List.getD_eq_getElem _ _ hlt]

theorem Median_even (f : CMedianFilter) (hne : f.size ≠ 0) (heven : f.size % 2 = 0) :
    ∃ a b, f.sorted[f.size / 2 - 1]? = some a ∧ f.sorted[f.size / 2]? = some b ∧
      f.Median = ((a : ℚ) + (b : ℚ)) / 2 := by
  have hlt : f.size / 2 < f.sorted.length := by rw [sorted_length]; omega
  have hlt1 : f.size / 2 - 1 < f.sorted.length := by rw [sorted_length]; omega
  refine ⟨f.sorted[f.size / 2 - 1], f.sorted[f.size / 2], List.getElem?_eq_getElem hlt1,
    List.getElem?_eq_getElem hlt, ?_⟩
  unfold CMedianFilter.Median
  simp only [sorted_length]
  rw [if_neg hne, if_neg (by omega), List.getD_eq_getElem _ _ hlt,
    List.getD_eq_getElem _ _ hlt1]

/-- C13. For every non-empty content of the filter, `sorted` is the ascending
arrangement of the stored values, and `Median()` is its middle element when the number
`n` of stored values is odd and the arithmetic mean of its two middle elements when `n`
is even. In the filter of `AddTimeData` (capacity 200, seed 0) the stored values
1, 2, 3 give 2, the stored value 5 gives 5, and the stored values 1, 2, 3, 4 give 2.5. -/
theorem C13_median_correct :
    (∀ f : CMedianFilter, f.vValues ≠ [] →
      f.sorted.Sorted (· ≤ ·) ∧ f.sorted.Perm f.vValues ∧
      (f.size % 2 = 1 → ∃ m, f.sorted[f.size / 2]? = some m ∧ f.Median = (m : ℚ)) ∧
      (f.size % 2 = 0 → ∃ a b, f.sorted[f.size / 2 - 1]? = some a ∧
        f.sorted[f.size / 2]? = some b ∧ f.Median = ((a : ℚ) + (b : ℚ)) / 2)) ∧
    ((((CMedianFilter.create medianRange 0).input 1).input 2).input 3).Median = 2 ∧
    ((CMedianFilter.create medianRange 0).input 5).Median = 5 ∧
    (((((CMedianFilter.create medianRange 0).input 1).input 2).input 3).input 4).Median
      = 5 / 2 := by
  have hgen : ∀ f : CMedianFilter, f.vValues ≠ [] →
      f.sorted.Sorted (· ≤ ·) ∧ f.sorted.Perm f.vValues ∧
      (f.size % 2 = 1 → ∃ m, f.sorted[f.size / 2]? = some m ∧ f.Median = (m : ℚ)) ∧
      (f.size % 2 = 0 → ∃ a b, f.sorted[f.size / 2 - 1]? = some a ∧
        f.sorted[f.size / 2]? = some b ∧ f.Median = ((a : ℚ) + (b : ℚ)) / 2) := by
    intro f hne
    have hsz : f.size ≠ 0 := fun h0 => hne (List.length_eq_zero.1 h0)
    exact ⟨List.sorted_insertionSort _ _, List.perm_insertionSort _ _, Median_odd f,
      Median_even f hsz⟩
  refine ⟨hgen, ?_, ?_, ?_⟩
  · obtain ⟨m, hm, hM⟩ := Median_odd
      ((((CMedianFilter.create medianRange 0).input 1).input 2).input 3) (by decide)
    have h2 : ((((CMedianFilter.create medianRange 0).input 1).input 2).input 3).sorted[
        ((((CMedianFilter.create medianRange 0).input 1).input 2).input 3).size / 2]?
        = some 2 := by decide
    rw [hM, Option.some.inj (hm.symm.trans h2)]
    norm_num
  · obtain ⟨m, hm, hM⟩ := Median_odd ((CMedianFilter.create medianRange 0).input 5)
      (by decide)
    have h5 : ((CMedianFilter.create medianRange 0).input 5).sorted[
        ((CMedianFilter.create medianRange 0).input 5).size / 2]? = some 5 := by decide
    rw [hM, Option.some.inj (hm.symm.trans h5)]
    norm_num
  · obtain ⟨a, b, ha, hb, hM⟩ := Median_even
      (((((CMedianFilter.create medianRange 0).input 1).input 2).input 3).input 4)
      (by decide) (by decide)
    have h2 : (((((CMedianFilter.create medianRange 0).input 1).input 2).input 3).input 4).sorted[
        (((((CMedianFilter.create medianRange 0).input 1).input 2).input 3).input 4).size / 2 - 1]?
        = some 2 := by decide
    have h3 : (((((CMedianFilter.create medianRange 0).input 1).input 2).input 3).input 4).sorted[
        (((((CMedianFilter.create medianRange 0).input 1).input 2).input 3).input 4).size / 2]?
        = some 3 := by decide
    rw [hM, Option.some.inj (ha.symm.trans h2), Option.some.inj (hb.symm.trans h3)]
    norm_num

/-- C13 at the stored values 4, 1, 3, 2 (not in order): they are sorted to 1, 2, 3, 4,
the two middle elements are 2 and 3 and `Median()` is 2.5; `AddTimeData` would read it
converted to `int64_t`, which is 2. -/
theorem C13_median_correct_witness :
    (⟨200, 0, [4, 1, 3, 2]⟩ : CMedianFilter).vValues ≠ [] ∧
    (⟨200, 0, [4, 1, 3, 2]⟩ : CMedianFilter).sorted = [1, 2, 3, 4] ∧
    (⟨200, 0, [4, 1, 3, 2]⟩ : CMedianFilter).Median = 5 / 2 ∧
    (⟨200, 0, [4, 1, 3, 2]⟩ : CMedianFilter).median = 2 := by
  have hne : (⟨200, 0, [4, 1, 3, 2]⟩ : CMedianFilter).vValues ≠ [] := by decide
  obtain ⟨a, b, ha, hb, hM⟩ :=
    ((C13_median_correct).1 ⟨200, 0, [4, 1, 3, 2]⟩ hne).2.2.2 (by decide)
  have h2 : (⟨200, 0, [4, 1, 3, 2]⟩ : CMedianFilter).sorted[
      (⟨200, 0, [4, 1, 3, 2]⟩ : CMedianFilter).size / 2 - 1]? = some 2 := by decide
  have h3 : (⟨200, 0, [4, 1, 3, 2]⟩ : CMedianFilter).sorted[
      (⟨200, 0, [4, 1, 3, 2]⟩ : CMedianFilter).size / 2]? = some 3 := by decide
  refine ⟨hne, by decide, ?_, by rw [median_eq]; decide⟩
  rw [hM, Option.some.inj (ha.symm.trans h2), Option.some.inj (hb.symm.trans h3)]
  norm_num

end Median

section Bound

variable {CNetAddr : Type} [DecidableEq CNetAddr]

end Bound

section Freeze

variable {CNetAddr : Type} [DecidableEq CNetAddr]

theorem input_size_full (f : CMedianFilter) (x : Int) (hfull : f.size = f.nSize) :
    (f.input x).nSize = f.nSize ∧ (f.input x).size = f.size := by
  unfold CMedianFilter.size at hfull
  simp only [CMedianFilter.input, CMedianFilter.size, List.length_append,
    List.length_singleton]
  rw [if_pos (by omega)]
  simp

/-- With a full filter a call leaves the offset as it was or resets it to 0, and the
filter stays full. -/
theorem full_step (s : State CNetAddr) (c : Call CNetAddr)
    (hcap : s.vTimeOffsets.nSize = medianRange) (hfull : s.vTimeOffsets.size = medianRange) :
    ((step s c).nTimeOffset = s.nTimeOffset ∨ (step s c).nTimeOffset = 0) ∧
    (step s c).vTimeOffsets.nSize = medianRange ∧
    (step s c).vTimeOffsets.size = medianRange := by
  by_cases hc : c.ip ∈ s.setKnown
  · rw [step_dup s c hc]; exact ⟨Or.inl rfl, hcap, hfull⟩
  · obtain ⟨h1, h2⟩ := input_size_full s.vTimeOffsets c.nOffsetSample (by rw [hfull, hcap])
    refine ⟨?_, by rw [step_vTimeOffsets s c hc, h1, hcap],
      by rw [step_vTimeOffsets s c hc, h2, hfull]⟩
    rw [step, AddTimeData_nTimeOffset _ _ _ _ _ hc, h2, hfull,
      if_pos (by decide : medianRange ≥ 5), if_neg (lt_irrefl medianRange)]
    split_ifs
    · exact Or.inl rfl
    · exact Or.inr rfl

theorem full_run (cs : List (Call CNetAddr)) (s : State CNetAddr)
    (hcap : s.vTimeOffsets.nSize = medianRange) (hfull : s.vTimeOffsets.size = medianRange) :
    (runState s cs).vTimeOffsets.nSize = medianRange ∧
    (runState s cs).vTimeOffsets.size = medianRange ∧
    ((runState s cs).nTimeOffset = s.nTimeOffset ∨ (runState s cs).nTimeOffset = 0) ∧
    (s.nTimeOffset = 0 → (runState s cs).nTimeOffset = 0) ∧
    offsetChanges s cs ≤ (if s.nTimeOffset = 0 then 0 else 1) := by
  induction cs generalizing s with
  | nil =>
    refine ⟨hcap, hfull, Or.inl rfl, fun h => h, ?_⟩
    simp [offsetChanges]
  | cons c cs ih =>
    obtain ⟨ho, hcap1, hfull1⟩ := full_step s c hcap hfull
    obtain ⟨i1, i2, i3, i4, i5⟩ := ih (step s c) hcap1 hfull1
    have hzero : s.nTimeOffset = 0 → (step s c).nTimeOffset = 0 := by
      intro h0
      rcases ho with h | h
      · rw [h, h0]
      · exact h
    refine ⟨i1, i2, ?_, fun h0 => i4 (hzero h0), ?_⟩
    · rcases i3 with h | h
      · rcases ho with h1 | h1
        · exact Or.inl (h.trans h1)
        · exact Or.inr (h.trans h1)
      · exact Or.inr h
    · show (if (step s c).nTimeOffset = s.nTimeOffset then 0 else 1)
        + offsetChanges (step s c) cs ≤ _
      by_cases hsame : (step s c).nTimeOffset = s.nTimeOffset
      · rw [if_pos hsame, Nat.zero_add]
        rw [hsame] at i5
        exact i5
      · have hz : (step s c).nTimeOffset = 0 := ho.resolve_left hsame
        have hs0 : s.nTimeOffset ≠ 0 := fun h0 => hsame (by rw [hz, h0])
        rw [if_neg hsame, if_neg hs0]
        rw [if_pos hz] at i5
        omega

theorem reachable_size (cs : List (Call CNetAddr)) :
    (runState (State.init CNetAddr) cs).vTimeOffsets.size =
      (runState (State.init CNetAddr) cs).listKnown.length := by
  obtain ⟨_, _, _, _, hsnd, hfst⟩ := Inv_reachable cs
  have h1 := congrArg List.length hsnd
  have h2 := congrArg List.length hfst
  simp only [List.length_map, List.length_reverse] at h1 h2
  rw [CMedianFilter.size, ← h1, h2]

/-- C19. For every reachable state in which the filter holds 200 values: every later call
leaves the global offset unchanged or equal to 0; from any later state with offset 0 on,
`GetTimeOffset` returns 0 after every further sequence of calls; and at most one call of
any further sequence changes the offset. -/
theorem C19_zero_absorbing_after_full (pre : List (Call CNetAddr))
    (hfull : (runState (State.init CNetAddr) pre).vTimeOffsets.size = 200) :
    (∀ (mid : List (Call CNetAddr)) (c : Call CNetAddr),
      GetTimeOffset (step (runState (State.init CNetAddr) (pre ++ mid)) c) =
        GetTimeOffset (runState (State.init CNetAddr) (pre ++ mid)) ∨
      GetTimeOffset (step (runState (State.init CNetAddr) (pre ++ mid)) c) = 0) ∧
    (∀ mid : List (Call CNetAddr),
      GetTimeOffset (runState (State.init CNetAddr) (pre ++ mid)) = 0 →
      ∀ post : List (Call CNetAddr),
        GetTimeOffset (runState (State.init CNetAddr) (pre ++ mid ++ post)) = 0) ∧
    (∀ post : List (Call CNetAddr),
      offsetChanges (runState (State.init CNetAddr) pre) post ≤ 1) := by
  have hcap := (Inv_reachable pre).2.2.2.1
  have hfull1 : (runState (State.init CNetAddr) pre).vTimeOffsets.size = medianRange := hfull
  refine ⟨?_, ?_, ?_⟩
  · intro mid c
    obtain ⟨m1, m2, _⟩ := full_run mid _ hcap hfull1
    rw [runState_append]
    exact (full_step _ c m1 m2).1
  · intro mid h0 post
    obtain ⟨m1, m2, _⟩ := full_run mid _ hcap hfull1
    rw [runState_append] at h0
    rw [List.append_assoc, runState_append, runState_append]
    exact (full_run post _ m1 m2).2.2.2.1 h0
  · intro post
    have h := (full_run post _ hcap hfull1).2.2.2.2
    split_ifs at h <;> omega

/-- C19 at the state after the 200 distinct peers `0..199`: the filter holds 200 values,
so at most one later call changes the offset. -/
theorem C19_zero_absorbing_after_full_witness :
    (runState (State.init Nat) (distinctPeers 200)).vTimeOffsets.size = 200 ∧
    (∀ post : List (Call Nat),
      offsetChanges (runState (State.init Nat) (distinctPeers 200)) post ≤ 1) :=
  have hips : (distinctPeers 200).map Call.ip = List.range 200 := by
    simp [distinctPeers, List.map_map, Function.comp_def]
  have hfull : (runState (State.init Nat) (distinctPeers 200)).vTimeOffsets.size = 200 := by
    rw [reachable_size, runState_fresh _ _ _ Inv_init (by rw [hips]; exact List.nodup_range 200)
      (by intro c _; simp [State.init]), hips]
    simp [State.init, medianRange]
  ⟨hfull, (C19_zero_absorbing_after_full (distinctPeers 200) hfull).2.2⟩

end Freeze

end TimeData
